import Mathlib

/-!
# Robot arm (`src/robot-arm.js`): logical state, visual state and the animation queue

A shallow embedding of the `RobotArm` constructor of `src/robot-arm.js`.

* `local.state.*` is the logical state that the commands (`moveRight`, `moveLeft`, `grab`,
  `drop`, `scan`, `scanColumn`) read and write at once.
* `local.arm.*` / `local.blocks.*` is the visual state, written by the animation functions that
  `local.render` runs from `local.animationList`, one per frame, at `local.currentAnimation`.

Numbers that the source only uses as pixel offsets are exact fractions (`Frac`), so the rounding
of IEEE doubles is not part of the model; nothing proved below depends on the value of an offset.
The board is present in every state of the model (the source starts with `map = null` and a level
load installs a board before any command is usable).

The logical board only ever holds arrays of its own (`copyMap` copies every column, and a new
column is a new array), so it is a value (`Board`). The visual board holds the column arrays of
the argument of `setMap` (`map.slice()` copies the outer array only), so it is kept as references
into a store of arrays (`VisualBoard`).
-/

namespace RobotArm

/-! ## Values -/

/-- A block is a JS primitive: a colour name (string) or a numeric label. -/
inductive Block where
  | color (name : String)
  | label (n : Int)
deriving DecidableEq, Repr

/-- JS truthiness of a block value: the empty string and the number zero are falsy. -/
def Block.truthy : Block → Bool
  | .color name => name != ""
  | .label n => n != 0

/-- A column is a JS array of blocks, bottom first; the top of the stack is the last element. -/
abbrev Column := List Block

/-- Read `l[i]` of a sparse JS array: `undefined` (here `none`) for a hole and for an index at or
past the length. -/
def slotGet {α : Type} : List (Option α) → Nat → Option α
  | [], _ => none
  | x :: _, 0 => x
  | _ :: l, i + 1 => slotGet l i

/-- Assignment `l[i] = c` on a JS array: overwrites inside the length, otherwise grows the array,
leaving holes between the old length and `i`. -/
def slotSet {α : Type} : List (Option α) → Nat → α → List (Option α)
  | [], 0, c => [some c]
  | [], i + 1, c => none :: slotSet [] i c
  | _ :: l, 0, c => some c :: l
  | x :: l, i + 1, c => x :: slotSet l i c

/-- The array stored in `local.blocks.map` or `local.state.blocks.map`: the index properties
`cols` (with holes) and the properties whose key is a negative integer (`neg[k]` is the property
`-(k+1)`), which a JS array stores outside its length. -/
structure Board where
  cols : List (Option Column)
  neg : List (Option Column)
deriving DecidableEq, Repr

/-- The JS read `map[p]`. -/
def Board.get (b : Board) : Int → Option Column
  | Int.ofNat n => slotGet b.cols n
  | Int.negSucc n => slotGet b.neg n

/-- The JS assignment `map[p] = c`. -/
def Board.set (b : Board) (p : Int) (c : Column) : Board :=
  match p with
  | Int.ofNat n => { b with cols := slotSet b.cols n c }
  | Int.negSucc n => { b with neg := slotSet b.neg n c }

/-- The blocks stacked at position `p`, bottom first; a missing column holds no block. -/
def Board.stack (b : Board) (p : Int) : List Block :=
  (b.get p).getD []

/-- Number of blocks in a list of slots. -/
def slotCount : List (Option Column) → Nat
  | [] => 0
  | none :: rest => slotCount rest
  | some c :: rest => c.length + slotCount rest

/-- Number of blocks on the whole board. -/
def Board.count (b : Board) : Nat :=
  slotCount b.cols + slotCount b.neg

/-- The array stored in `local.blocks.map`, the visual board. Its elements are references to
column arrays: `arrays` holds the array objects in the order of their creation, `cols` (index
properties, `none` is a hole) and `neg` (negative keys) hold the number of the array referred to.
Entries with the same number are one array: a `push` or `splice` through one shows through the
other. -/
structure VisualBoard where
  arrays : List Column
  cols : List (Option Nat)
  neg : List (Option Nat)
deriving DecidableEq, Repr

/-- The array that `map[p]` refers to, by number. -/
def VisualBoard.ref (vb : VisualBoard) : Int → Option Nat
  | Int.ofNat n => slotGet vb.cols n
  | Int.negSucc n => slotGet vb.neg n

/-- The JS read `map[p]` on the visual board: the contents of the array referred to. -/
def VisualBoard.get (vb : VisualBoard) (p : Int) : Option Column :=
  match vb.ref p with
  | some r => vb.arrays.get? r
  | none => none

/-- The blocks stacked at position `p` of the visual board, bottom first. -/
def VisualBoard.stack (vb : VisualBoard) (p : Int) : List Block :=
  (vb.get p).getD []

/-- A change in place (`splice`, `push`) of the array that `map[p]` refers to, which then holds
`c`; every entry that refers to the same array shows the change. -/
def VisualBoard.write (vb : VisualBoard) (p : Int) (c : Column) : VisualBoard :=
  match vb.ref p with
  | some r => { vb with arrays := vb.arrays.set r c }
  | none => vb

/-- The JS assignment `map[p] = c` of a newly created array `c`. -/
def VisualBoard.assign (vb : VisualBoard) (p : Int) (c : Column) : VisualBoard :=
  match p with
  | Int.ofNat n =>
    { vb with arrays := vb.arrays ++ [c], cols := slotSet vb.cols n vb.arrays.length }
  | Int.negSucc n =>
    { vb with arrays := vb.arrays ++ [c], neg := slotSet vb.neg n vb.arrays.length }

/-- The visual board read entry by entry: what a reader of `local.blocks.map` sees. -/
def VisualBoard.view (vb : VisualBoard) : Board :=
  ⟨vb.cols.map (fun r => r.bind vb.arrays.get?), vb.neg.map (fun r => r.bind vb.arrays.get?)⟩

/-- No array stands at two places of the visual board, and every reference is to an array of the
store. -/
def VisualBoard.Distinct (vb : VisualBoard) : Prop :=
  (∀ p q r, vb.ref p = some r → vb.ref q = some r → p = q) ∧
    ∀ p r, vb.ref p = some r → r < vb.arrays.length

/-- The four functions that the commands push on `local.animationList`. -/
inductive Anim where
  | moveRightAnimation
  | moveLeftAnimation
  | grabAnimation
  | dropAnimation
deriving DecidableEq, Repr

/-! ## Exact fractions for the pixel offsets -/

/-- A number `num / den`. A zero denominator stands for the JS results of a division by zero:
`+Infinity` (`num > 0`), `-Infinity` (`num < 0`) and `NaN` (`num = 0`). -/
structure Frac where
  num : Int
  den : Nat
deriving DecidableEq, Repr

namespace Frac

def ofNat (n : Nat) : Frac := ⟨n, 1⟩

def isNaN (a : Frac) : Bool := a.den == 0 && a.num == 0

def neg (a : Frac) : Frac := ⟨-a.num, a.den⟩

def add (a b : Frac) : Frac :=
  if a.den = 0 ∧ b.den = 0 then
    (if a.num.sign = b.num.sign then a else ⟨0, 0⟩)
  else ⟨a.num * b.den + b.num * a.den, a.den * b.den⟩

def sub (a b : Frac) : Frac := add a (neg b)

def mul (a b : Frac) : Frac := ⟨a.num * b.num, a.den * b.den⟩

/-- Division by a non-negative integer; by zero it gives an infinity or `NaN`. -/
def divNat (a : Frac) (n : Nat) : Frac := ⟨a.num, a.den * n⟩

/-- The JS comparison `a <= b` (false as soon as one side is `NaN`). -/
def le (a b : Frac) : Bool :=
  !a.isNaN && !b.isNaN &&
    (if a.den = 0 ∧ b.den = 0 then decide (a.num.sign ≤ b.num.sign)
     else decide (a.num * b.den ≤ b.num * a.den))

end Frac

/-! ## State -/

/-- Everything the constructor keeps in `self`, `local` and the canvas that the modelled functions
read or write. -/
structure State where
  /-- The field `self.columns`. -/
  columns : Nat
  /-- The field `self.rows`. -/
  rows : Nat
  /-- The field `self.speed`. -/
  speed : Frac
  /-- The canvas attribute `ctx.canvas.width`. -/
  canvasWidth : Nat
  /-- The canvas attribute `ctx.canvas.height`. -/
  canvasHeight : Nat
  /-- The field `local.animationList`. -/
  animationList : List Anim
  /-- The field `local.currentAnimation`. -/
  currentAnimation : Nat
  /-- The property `isMovingUp` that `grabAnimation` and `dropAnimation` keep on `this`; they are
  called as `local.animationList[i](dt)`, so `this` is the one array `local.animationList`. -/
  isMovingUp : Bool
  /-- The field `local.arm.position` (visual). -/
  armPosition : Int
  /-- The field `local.arm.horizontalOffset`. -/
  horizontalOffset : Frac
  /-- The field `local.arm.verticalOffset`. -/
  verticalOffset : Frac
  /-- The field `local.blocks.map` (visual). -/
  map : VisualBoard
  /-- The field `local.blocks.held` (visual). -/
  held : Option Block
  /-- The field `local.state.arm.position` (logical). -/
  statePosition : Int
  /-- The field `local.state.blocks.map` (logical). -/
  stateMap : Board
  /-- The field `local.state.blocks.held` (logical). -/
  stateHeld : Option Block
  /-- The field `local.settings.coloredColumns`, a sparse array of colour names. -/
  coloredColumns : List (Option String)
  /-- The field `local.settings.hasColoredColumns`. -/
  hasColoredColumns : Bool
  /-- The field `local.settings.snapColor`. -/
  snapColor : String
  /-- How many times `examLevel(3)` has replaced `self.scanColumn` by its wrapper. -/
  scanOverrides : Nat
  /-- The field `local.state.scannedColumns`. -/
  scannedColumns : List Int
deriving DecidableEq, Repr

/-- The constant `local.arm.height`. -/
def armHeight : Nat := 25

/-- The constant `local.arm.hookHeight`. -/
def hookHeight : Nat := 10

/-! ## Stack operations shared by the commands and the animations

`self.grab` and `local.grabAnimation` run the same statements, the first on `local.state`, the
second on `local`; likewise `local.dropBlock` and `local.dropAnimation`. On the logical board the
statements are `takeTop` and `putHeld`; on the visual board, where `splice` and `push` change an
array that several entries may refer to, they are `takeTopVisual` and `putHeldVisual`. -/

/-- The body
`if (map[p] && map[p].length > 0) { held = map[p][map[p].length - 1]; map[p].splice(map[p].length - 1, 1); }`. -/
def takeTop (b : Board) (p : Int) (held : Option Block) : Board × Option Block :=
  match b.get p with
  | some col =>
    match col.getLast? with
    | some top => (b.set p col.dropLast, some top)
    | none => (b, held)
  | none => (b, held)

/-- The body
`if (held != null) { if (!map[p]) map[p] = []; map[p].push(held); held = null; }`. -/
def putHeld (b : Board) (p : Int) (held : Option Block) : Board × Option Block :=
  match held with
  | some x => (b.set p ((b.get p).getD [] ++ [x]), none)
  | none => (b, none)

/-- The body of `takeTop` on the visual board: `splice` changes the array in place. -/
def takeTopVisual (vb : VisualBoard) (p : Int) (held : Option Block) :
    VisualBoard × Option Block :=
  match vb.get p with
  | some col =>
    match col.getLast? with
    | some top => (vb.write p col.dropLast, some top)
    | none => (vb, held)
  | none => (vb, held)

/-- The body of `putHeld` on the visual board: `map[p] = []` creates an array when `map[p]` is
`undefined`, and `push` changes the array at `map[p]` in place. -/
def putHeldVisual (vb : VisualBoard) (p : Int) (held : Option Block) :
    VisualBoard × Option Block :=
  match held with
  | some x =>
    let vb1 :=
      match vb.get p with
      | some _ => vb
      | none => vb.assign p []
    (vb1.write p ((vb1.get p).getD [] ++ [x]), none)
  | none => (vb, none)

/-! ## Commands (`self.*`) -/

/-- The command `self.moveRight`. -/
def moveRight (s : State) : State :=
  if s.armPosition + 1 > (s.columns : Int) then s
  else { s with
    animationList := s.animationList ++ [Anim.moveRightAnimation]
    statePosition := s.statePosition + 1 }

/-- The command `self.moveLeft`. -/
def moveLeft (s : State) : State :=
  if s.statePosition - 1 < 0 then s
  else { s with
    animationList := s.animationList ++ [Anim.moveLeftAnimation]
    statePosition := s.statePosition - 1 }

/-- The query `self.scan = self.scanBlock`: `local.state.blocks.held || null`. -/
def scanBlock (s : State) : Option Block :=
  match s.stateHeld with
  | some b => if b.truthy then some b else none
  | none => none

/-- The read `local.settings.coloredColumns[p]`. -/
def coloredColumnAt (cc : List (Option String)) : Int → Option String
  | Int.ofNat n => slotGet cc n
  | Int.negSucc _ => none

/-- The expression `local.settings.coloredColumns[p] || null`: the colour assigned to column `p`,
`null` when there is none (an empty name is falsy). -/
def coloredColumnOrNull (cc : List (Option String)) (p : Int) : Option String :=
  match coloredColumnAt cc p with
  | some c => if c != "" then some c else none
  | none => none

/-- The function first installed as `self.scanColumn`:
`local.settings.coloredColumns[local.state.arm.position] || null`. -/
def scanColumnOriginal (s : State) : Option String :=
  coloredColumnOrNull s.coloredColumns s.statePosition

/-- The method `self.scanColumn` as it stands after `scanOverrides` loads of exam level 3.
Each load sets `local.scanColumnOrignal = self.scanColumn` and installs a wrapper that, when the
position is not in `local.state.scannedColumns`, records it and calls `local.scanColumnOrignal()`.
After one load that is the first function; after a further load it is the previous wrapper, which
then finds the position recorded and returns `null`. -/
def scanColumn (s : State) : State × Option String :=
  match s.scanOverrides with
  | 0 => (s, scanColumnOriginal s)
  | n + 1 =>
    if s.statePosition ∈ s.scannedColumns then (s, none)
    else
      let s1 := { s with scannedColumns := s.scannedColumns ++ [s.statePosition] }
      (s1, if n = 0 then scanColumnOriginal s1 else none)

/-- The command `self.grab`. -/
def grab (s : State) : State :=
  match s.stateHeld with
  | none =>
    let r := takeTop s.stateMap s.statePosition s.stateHeld
    { s with
      animationList := s.animationList ++ [Anim.grabAnimation]
      stateMap := r.1
      stateHeld := r.2 }
  | some _ => s

/-- The function `local.dropBlock`. -/
def dropBlock (s : State) : State :=
  let r := putHeld s.stateMap s.statePosition s.stateHeld
  { s with
    animationList := s.animationList ++ [Anim.dropAnimation]
    stateMap := r.1
    stateHeld := r.2 }

/-- The JS test `color !== column` between a block and the result of `scanColumn()`. -/
def strictNe (color : Block) (column : Option String) : Bool :=
  match color, column with
  | .color name, some c => name != c
  | _, _ => true

/-- The command `self.drop`, with its return value. -/
def drop (s : State) : State × Bool :=
  if !s.hasColoredColumns then (dropBlock s, true)
  else
    let color := scanBlock s
    let s1 := dropBlock s
    match color with
    | none => (s1, true)
    | some c =>
      let r := scanColumn s1
      if strictNe c r.2 then (grab r.1, false) else (r.1, true)

/-- Value of a string as a JS number when `!=` compares it with a number, for the empty string
(zero) and for a run of decimal digits. Every other string is read as `NaN`, which equals no
number: that is what JS does with a colour name and with `#7e787f`, the only non-empty value the
source gives `snapColor`; signed, fractional, exponent, radix and space-padded numerals are not
modelled. -/
def stringToNumber (str : String) : Option Int :=
  if str = "" then some 0 else str.toNat?.map Int.ofNat

/-- The JS test `value != snapColor` used by the filter of `self.snap`. -/
def looseNe (value : Block) (snapColor : String) : Bool :=
  match value with
  | .color name => name != snapColor
  | .label n => stringToNumber snapColor != some n

/-- The loop of `self.snap` over `local.blocks.map` from index `i` on, `count` indices being
left: `map[i] = map[i].filter(...)` puts a new array, the filter of the old one, at index `i`; at a
hole `map[i].filter` throws a `TypeError`, which ends the loop (second component `true`). -/
def snapColumns (snapColor : String) (vb : VisualBoard) (i : Nat) :
    Nat → VisualBoard × Bool
  | 0 => (vb, false)
  | count + 1 =>
    match vb.get (Int.ofNat i) with
    | none => (vb, true)
    | some c =>
      snapColumns snapColor
        (vb.assign (Int.ofNat i) (c.filter (fun value => looseNe value snapColor))) (i + 1) count

/-- The command `self.snap`; the second component tells whether it threw. -/
def snap (s : State) : State × Bool :=
  match scanBlock s with
  | none =>
    let r := snapColumns s.snapColor s.map 0 s.map.cols.length
    ({ s with map := r.1 }, r.2)
  | some _ => (s, false)

/-- The argument of `setMap`: a JS array whose elements refer to column arrays. `arrays` holds the
column arrays, `cols` the number of the array at each index; `none`, and a number past the end of
`arrays`, stand for an element that is not an array (a hole, `undefined`). The same array may stand
at several indices. -/
structure MapArg where
  arrays : List Column
  cols : List (Option Nat)
deriving DecidableEq, Repr

/-- The elements of the argument as references, `none` where the element is not an array. -/
def MapArg.refs (m : MapArg) : List (Option Nat) :=
  m.cols.map (fun r => r.bind (fun i => if i < m.arrays.length then some i else none))

/-- The references `start, start + 1, ...` to `count` arrays. -/
def freshRefs (start : Nat) : Nat → List (Option Nat)
  | 0 => []
  | count + 1 => some start :: freshRefs (start + 1) count

/-- A JS array literal of columns, each column an array of its own. -/
def MapArg.ofColumns (m : List Column) : MapArg :=
  ⟨m, freshRefs 0 m.length⟩

/-- The loop of `local.copyMap`: `map[i].slice()` is a new array with the contents of `map[i]`;
`none` when it throws at an element that is not an array. -/
def copyColumns (arrays : List Column) : List (Option Nat) → Option (List (Option Column))
  | [] => some []
  | none :: _ => none
  | some r :: rest =>
    match arrays.get? r with
    | none => none
    | some c => (copyColumns arrays rest).map (fun done => some c :: done)

/-- The function `local.copyMap`. -/
def copyMap (m : MapArg) : Option (List (Option Column)) :=
  copyColumns m.arrays m.cols

/-- The command `self.setMap`. `local.blocks.map = map.slice()` gives the visual board the column
arrays of the argument themselves; `local.state.blocks.map = local.copyMap(map)` gives the logical
board copies. When `copyMap` throws, the first assignment has already been made. The caller is
taken not to write the arrays afterwards. -/
def setMap (s : State) (m : MapArg) : State :=
  let s1 := { s with map := ⟨m.arrays, m.refs, []⟩ }
  match copyMap m with
  | some m1 => { s1 with stateMap := ⟨m1, []⟩ }
  | none => s1

/-! ## Construction and level loads -/

/-- State after `new RobotArm(canvas)` on a canvas of the given size. The source leaves both boards
`null` until a level is loaded (a command issued before that throws); here they start as the empty
array, which every load overwrites. -/
def construct (canvasWidth canvasHeight : Nat) : State :=
  { columns := 9
    rows := 8
    speed := Frac.ofNat 50
    canvasWidth := canvasWidth
    canvasHeight := canvasHeight
    animationList := []
    currentAnimation := 0
    isMovingUp := false
    armPosition := 0
    horizontalOffset := Frac.ofNat 0
    verticalOffset := Frac.ofNat 0
    map := ⟨[], [], []⟩
    held := none
    statePosition := 0
    stateMap := ⟨[], []⟩
    stateHeld := none
    coloredColumns := []
    hasColoredColumns := false
    snapColor := ""
    scanOverrides := 0
    scannedColumns := [] }

/-- The loop `for (i ...) local.settings.coloredColumns[i + start] = colors[i]`. -/
def assignColors (cc : List (Option String)) (start : Nat) : List String → List (Option String)
  | [] => cc
  | c :: rest => assignColors (slotSet cc start c) (start + 1) rest

/-- The call `examLevel(3)`. The outcome of the shuffles is given: `rawColors` is the array of the
eight colour names as the last shuffle leaves it, `column0` the eight blocks pushed on `map[0]`. -/
def examLevel3 (s : State) (rawColors : List String) (column0 : Column) : State :=
  setMap
    { s with
      columns := 10
      armPosition := 9
      statePosition := 9
      coloredColumns := assignColors s.coloredColumns 1 rawColors
      scannedColumns := []
      scanOverrides := s.scanOverrides + 1 }
    (MapArg.ofColumns [column0, [], [], []])

/-- The call `examLevel(5)`. -/
def examLevel5 (s : State) : State :=
  setMap { s with columns := 3, armPosition := 0, statePosition := 0 }
    (MapArg.ofColumns [[Block.label 3, Block.label 1, Block.label 2, Block.label 4, Block.label 5]])

/-- The call `examLevel(8)`, also `examLevel("thanos")`. -/
def examLevel8 (s : State) : State :=
  setMap
    { s with
      columns := 10
      armPosition := 0
      statePosition := 0
      coloredColumns := slotSet s.coloredColumns 9 "#a760ad"
      snapColor := "#7e787f" }
    (MapArg.ofColumns
      [[Block.color "#a760ad", Block.color "#a760ad", Block.color "#7e787f"],
       [Block.color "#a760ad", Block.color "#7e787f", Block.color "#7e787f"],
       [Block.color "#a760ad", Block.color "#a760ad", Block.color "#7e787f"]])

/-- The call `examLevel(1)`; `numbers` is the array `[6,5,4,3,2,1]` as the shuffles leave it. -/
def examLevel1 (s : State) (numbers : List Int) : State :=
  setMap { s with columns := 7, armPosition := 0, statePosition := 0 }
    (MapArg.ofColumns [numbers.map Block.label])

/-- The call `examLevel(2)`; `column4` holds the six colours pushed on `map[4]`. -/
def examLevel2 (s : State) (column4 : List String) : State :=
  setMap
    { s with
      columns := 9
      armPosition := 4
      statePosition := 4
      coloredColumns :=
        slotSet (slotSet (slotSet (slotSet s.coloredColumns 0 "red") 1 "blue") 7 "yellow")
          8 "green" }
    (MapArg.ofColumns [[], [], [], [], column4.map Block.color])

/-- The call `examLevel(4)`; `colors` is the array of four colours when the columns are assigned,
`column0` to `column3` the colours pushed on `map[0]` to `map[3]`. -/
def examLevel4 (s : State) (colors column0 column1 column2 column3 : List String) : State :=
  setMap
    { s with
      columns := 9
      armPosition := 4
      statePosition := 4
      coloredColumns := assignColors s.coloredColumns 5 colors }
    (MapArg.ofColumns
      [column0.map Block.color, column1.map Block.color, column2.map Block.color,
       column3.map Block.color])

/-- The call `examLevel(6)`; `c0` to `c3` are the four colours as the shuffle leaves them. -/
def examLevel6 (s : State) (c0 c1 c2 c3 : String) : State :=
  setMap
    { s with
      columns := 9
      armPosition := 4
      statePosition := 4
      coloredColumns :=
        slotSet (slotSet (slotSet (slotSet s.coloredColumns 0 c0) 1 c1) 7 c2) 8 c3 }
    (MapArg.ofColumns
      [[], [], [],
       [Block.color c0, Block.color c1, Block.color c2],
       [Block.color c3, Block.color c0, Block.color c3],
       [Block.color c2, Block.color c1, Block.color c0]])

/-- The array `columnColors` of `examLevel(7)`: the colours of the blocks in the order of their
first occurrence (`if (columnColors.indexOf(color) == -1) columnColors.push(color)`). -/
def columnColors (acc : List String) : List String → List String
  | [] => acc
  | c :: rest => columnColors (if c ∈ acc then acc else acc ++ [c]) rest

/-- The call `examLevel(7)`, which sets neither `self.columns` nor the arm positions; `column0`
holds the colours drawn for `map[0]`. -/
def examLevel7 (s : State) (column0 : List String) : State :=
  setMap { s with coloredColumns := assignColors s.coloredColumns 1 (columnColors [] column0) }
    (MapArg.ofColumns [column0.map Block.color, [], [], [], []])

/-- The argument of `examLevel` together with the outcome of the random draws of that level;
`unknown` is any argument the `switch` does not list. -/
inductive Level where
  | exam1 (numbers : List Int)
  | exam2 (column4 : List String)
  | exam3 (rawColors : List String) (column0 : Column)
  | exam4 (colors column0 column1 column2 column3 : List String)
  | exam5
  | exam6 (c0 c1 c2 c3 : String)
  | exam7 (column0 : List String)
  | exam8
  | unknown
deriving DecidableEq, Repr

/-- The method `self.examLevel`. For an unknown level it throws before `setMap` and leaves the
state as it was. -/
def examLevel (s : State) : Level → State
  | .exam1 numbers => examLevel1 s numbers
  | .exam2 column4 => examLevel2 s column4
  | .exam3 rawColors column0 => examLevel3 s rawColors column0
  | .exam4 colors column0 column1 column2 column3 =>
    examLevel4 s colors column0 column1 column2 column3
  | .exam5 => examLevel5 s
  | .exam6 c0 c1 c2 c3 => examLevel6 s c0 c1 c2 c3
  | .exam7 column0 => examLevel7 s column0
  | .exam8 => examLevel8 s
  | .unknown => s

/-! ## Animations (`local.*Animation`) and the frame -/

/-- The function `local.moveRightAnimation`. -/
def moveRightAnimation (s : State) (dt : Nat) : State × Bool :=
  let off := s.horizontalOffset.add
    (((s.speed.mul (Frac.ofNat s.canvasWidth)).divNat 1000).divNat dt)
  if off.le ((Frac.ofNat s.canvasWidth).divNat s.columns) then
    ({ s with horizontalOffset := off }, false)
  else
    ({ s with horizontalOffset := Frac.ofNat 0, armPosition := s.armPosition + 1 }, true)

/-- The function `local.moveLeftAnimation`. -/
def moveLeftAnimation (s : State) (dt : Nat) : State × Bool :=
  let off := s.horizontalOffset.sub
    (((s.speed.mul (Frac.ofNat s.canvasWidth)).divNat 1000).divNat dt)
  if (off.mul (Frac.neg (Frac.ofNat 1))).le ((Frac.ofNat s.canvasWidth).divNat s.columns) then
    ({ s with horizontalOffset := off }, false)
  else
    ({ s with horizontalOffset := Frac.ofNat 0, armPosition := s.armPosition - 1 }, true)

/-- The function `local.getAvailableTotalRowsHeight`. -/
def getAvailableTotalRowsHeight (s : State) : Frac :=
  ((Frac.ofNat s.canvasHeight).sub (Frac.ofNat armHeight)).sub (Frac.ofNat hookHeight)

/-- The function `local.moveArmDownAnimation`. -/
def moveArmDownAnimation (s : State) (dt : Nat) : State × Bool :=
  let off := s.verticalOffset.add
    (((s.speed.mul (Frac.ofNat (2 * s.canvasHeight))).divNat 1000).divNat dt)
  let s1 := { s with verticalOffset := off }
  let rowsForCurrentColumn :=
    ((s.map.get s.armPosition).getD []).length + (if s.held.isSome then 1 else 0)
  let blockHeight := (getAvailableTotalRowsHeight s).divNat s.rows
  let blocksTotalHeight := (Frac.ofNat rowsForCurrentColumn).mul blockHeight
  let distanceToTravel :=
    (((Frac.ofNat s.canvasHeight).sub blocksTotalHeight).sub (Frac.ofNat armHeight)).sub
      (Frac.ofNat 3)
  if off.le distanceToTravel then (s1, false) else (s1, true)

/-- The function `local.moveArmUpAnimation`. -/
def moveArmUpAnimation (s : State) (dt : Nat) : State × Bool :=
  let off := s.verticalOffset.sub
    (((s.speed.mul (Frac.ofNat (2 * s.canvasHeight))).divNat 1000).divNat dt)
  if (Frac.ofNat 0).le off then ({ s with verticalOffset := off }, false)
  else ({ s with verticalOffset := Frac.ofNat 0 }, true)

/-- The function `local.grabAnimation`; a missing return value counts as not done. -/
def grabAnimation (s : State) (dt : Nat) : State × Bool :=
  if !s.isMovingUp then
    let d := moveArmDownAnimation s dt
    if d.2 then
      let r := takeTopVisual d.1.map d.1.armPosition d.1.held
      ({ d.1 with isMovingUp := true, map := r.1, held := r.2 }, false)
    else (d.1, false)
  else
    let u := moveArmUpAnimation s dt
    if u.2 then ({ u.1 with isMovingUp := false }, true) else (u.1, false)

/-- The function `local.dropAnimation`; a missing return value counts as not done. -/
def dropAnimation (s : State) (dt : Nat) : State × Bool :=
  if !s.isMovingUp then
    let d := moveArmDownAnimation s dt
    if d.2 then
      let r := putHeldVisual d.1.map d.1.armPosition d.1.held
      ({ d.1 with isMovingUp := true, map := r.1, held := r.2 }, false)
    else (d.1, false)
  else
    let u := moveArmUpAnimation s dt
    if u.2 then ({ u.1 with isMovingUp := false }, true) else (u.1, false)

/-- The call `local.animationList[local.currentAnimation](dt)`. -/
def Anim.run : Anim → State → Nat → State × Bool
  | .moveRightAnimation => RobotArm.moveRightAnimation
  | .moveLeftAnimation => RobotArm.moveLeftAnimation
  | .grabAnimation => RobotArm.grabAnimation
  | .dropAnimation => RobotArm.dropAnimation

/-- The only state change of `local.renderFloor`: it sets `hasColoredColumns` when one of the floor
segments `0 .. columns` it draws has a truthy entry in `coloredColumns`. -/
def renderFloor (s : State) : State :=
  if (List.range (s.columns + 1)).any
      (fun i => decide (i < s.coloredColumns.length) &&
        (match slotGet s.coloredColumns i with
         | some c => c != ""
         | none => false)) then
    { s with hasColoredColumns := true }
  else s

/-- One frame of `local.render`, `dt` being the milliseconds since the previous frame: the
animation step, then the floor. -/
def render (s : State) (dt : Nat) : State :=
  let s1 :=
    match s.animationList.get? s.currentAnimation with
    | some a =>
      let r := a.run s (if dt != 0 then dt else 9999999)
      if r.2 then { r.1 with currentAnimation := r.1.currentAnimation + 1 } else r.1
    | none => s
  renderFloor s1

/-! ## Sequences of calls -/

/-- A call made by the program that drives the arm, or a frame. -/
inductive Event where
  | moveLeft
  | moveRight
  | grab
  | drop
  | scan
  | scanColumn
  | snap
  | render (dt : Nat)
deriving DecidableEq, Repr

/-- State after one event. -/
def step (s : State) : Event → State
  | .moveLeft => moveLeft s
  | .moveRight => moveRight s
  | .grab => grab s
  | .drop => (drop s).1
  | .scan => s
  | .scanColumn => (scanColumn s).1
  | .snap => (snap s).1
  | .render dt => render s dt

/-- State after a sequence of events. -/
def run (s : State) (es : List Event) : State :=
  es.foldl step s

/-- A call of `grab()` or of `drop()`. -/
inductive HandCall where
  | grab
  | drop
deriving DecidableEq, Repr

/-- The event of a hand call. -/
def HandCall.toEvent : HandCall → Event
  | .grab => Event.grab
  | .drop => Event.drop

/-- Total number of blocks in the logical columns, plus one if a block is held. -/
def logicalBlocks (s : State) : Nat :=
  s.stateMap.count + (if s.stateHeld.isSome then 1 else 0)

/-- Reference definition of `grab()` in the words of the specification: nothing changes when a
block is already held; otherwise one grab task is appended and the top block of the current
column, if there is one, leaves the column and becomes the held block. -/
def grabReference (s : State) : State :=
  if s.stateHeld ≠ none then s
  else
    let queued := { s with animationList := s.animationList ++ [Anim.grabAnimation] }
    match (s.stateMap.stack s.statePosition).reverse with
    | [] => queued
    | top :: below =>
      { queued with
        stateMap := s.stateMap.set s.statePosition below.reverse
        stateHeld := some top }

/-! ## Example states -/

/-- Exam level 5 on a fresh arm with a 900 x 400 canvas: three columns, arm at column 0. -/
def level5 : State := examLevel5 (construct 900 400)

/-- Level 5 after two `moveRight()` calls and the fourteen frames (1 ms apart) that play both
moves: the logical and the visual arm are at the last column, 2, and the queue is finished. -/
def level5AtLastColumn : State :=
  run level5 ([Event.moveRight, Event.moveRight] ++ List.replicate 14 (Event.render 1))

/-- Exam level 8 on a fresh arm with a 900 x 400 canvas: column 9 is assigned `#a760ad`, the snap
colour is `#7e787f`. -/
def level8 : State := examLevel8 (construct 900 400)

/-- Level 8 with the board replaced by the single block `0` (`setMap([[0]])`), after one frame
(which draws the floor), a `grab()` at column 0 and nine `moveRight()` calls: the arm holds the
numeric label `0` over column 9, the column assigned `#a760ad`. -/
def holdingZero : State :=
  run (setMap level8 (MapArg.ofColumns [[Block.label 0]]))
    ([Event.render 0, Event.grab] ++ List.replicate 9 Event.moveRight)

/-- Exam level 3 on a fresh arm with a 900 x 400 canvas, for one outcome of the shuffles: columns
1 to 8 are assigned red, blue, yellow, green, orange, purple, gray, black in this order, and
column 0 holds the colours red, blue, yellow, green twice, the top block being red. -/
def level3 : State :=
  examLevel3 (construct 900 400)
    ["red", "blue", "yellow", "green", "orange", "purple", "gray", "black"]
    [Block.color "red", Block.color "blue", Block.color "yellow", Block.color "green",
     Block.color "green", Block.color "yellow", Block.color "blue", Block.color "red"]

/-- A program for level 3 that never calls `scanColumn()`: after the first frame the arm goes from
column 9 to column 0, grabs the red block, moves to column 1 and drops it there. -/
def carryRedToColumn1 : List Event :=
  [Event.render 0] ++ List.replicate 9 Event.moveLeft ++
    [Event.grab, Event.moveRight, Event.drop]

/-! ## Invocations of `scanColumn` -/

/-- The invocations of `self.scanColumn` that one event makes, each with the logical arm position
at the invocation and the value returned: the caller's own call, and the call that `drop()` makes
in its colour check (`color != null && color !== self.scanColumn()`), which happens when
`hasColoredColumns` is set and `scanBlock()` is not `null`. -/
def scanCalls (s : State) : Event → List (Int × Option String)
  | .scanColumn => [(s.statePosition, (scanColumn s).2)]
  | .drop =>
    if s.hasColoredColumns && (scanBlock s).isSome then
      [((dropBlock s).statePosition, (scanColumn (dropBlock s)).2)]
    else []
  | _ => []

/-- All invocations of `self.scanColumn` during a sequence of events, in order. -/
def scanTrace (s : State) : List Event → List (Int × Option String)
  | [] => []
  | e :: es => scanCalls s e ++ scanTrace (step s e) es

/-! ## Views of the state -/

/-- The fields that no animation and no frame writes: the configuration, the queue contents, the
logical state and the scan bookkeeping. -/
def State.commandSide (s : State) :
    Nat × Nat × Frac × Nat × Nat × List Anim × Int × Board × Option Block ×
      List (Option String) × String × Nat × List Int :=
  (s.columns, s.rows, s.speed, s.canvasWidth, s.canvasHeight, s.animationList, s.statePosition,
    s.stateMap, s.stateHeld, s.coloredColumns, s.snapColor, s.scanOverrides, s.scannedColumns)

/-- Arm column, board and held block: the content of the logical state, and likewise of the
visual state once the pixel offsets are left out. -/
structure Scene where
  position : Int
  board : Board
  held : Option Block
deriving DecidableEq, Repr

/-- The visual scene as a reader sees it: `local.arm.position`, `local.blocks.map` read entry by
entry, `local.blocks.held`. -/
def State.visual (s : State) : Scene :=
  ⟨s.armPosition, s.map.view, s.held⟩

/-- The visual scene with the board as the references it is. -/
structure VisualScene where
  position : Int
  board : VisualBoard
  held : Option Block
deriving DecidableEq, Repr

/-- The visual scene as a reader sees it. -/
def VisualScene.view (v : VisualScene) : Scene :=
  ⟨v.position, v.board.view, v.held⟩

/-- The fields `local.arm.position`, `local.blocks.map`, `local.blocks.held`. -/
def State.visualScene (s : State) : VisualScene :=
  ⟨s.armPosition, s.map, s.held⟩

/-- What a task writes to the visual scene over its whole run. -/
def Anim.effectVisual : Anim → VisualScene → VisualScene
  | .moveRightAnimation, v => { v with position := v.position + 1 }
  | .moveLeftAnimation, v => { v with position := v.position - 1 }
  | .grabAnimation, v =>
    { v with
      board := (takeTopVisual v.board v.position v.held).1
      held := (takeTopVisual v.board v.position v.held).2 }
  | .dropAnimation, v =>
    { v with
      board := (putHeldVisual v.board v.position v.held).1
      held := (putHeldVisual v.board v.position v.held).2 }

/-- The logical scene: `local.state.arm.position`, `local.state.blocks.map`,
`local.state.blocks.held`. -/
def State.logical (s : State) : Scene :=
  ⟨s.statePosition, s.stateMap, s.stateHeld⟩

/-- What the command that queues a task writes to the logical scene at once; the task writes the
same to a visual scene in which no array stands at two places. -/
def Anim.effect : Anim → Scene → Scene
  | .moveRightAnimation, v => { v with position := v.position + 1 }
  | .moveLeftAnimation, v => { v with position := v.position - 1 }
  | .grabAnimation, v =>
    { v with
      board := (takeTop v.board v.position v.held).1
      held := (takeTop v.board v.position v.held).2 }
  | .dropAnimation, v =>
    { v with
      board := (putHeld v.board v.position v.held).1
      held := (putHeld v.board v.position v.held).2 }

/-- A scene after the given tasks have run to completion, in order. -/
def replay (v : Scene) (tasks : List Anim) : Scene :=
  tasks.foldl (fun w a => a.effect w) v

/-- Whether the task is one of the two-phase tasks (grab, drop). -/
def Anim.isHand : Anim → Bool
  | .grabAnimation => true
  | .dropAnimation => true
  | _ => false

/-- The tasks from the cursor on. -/
def State.pending (s : State) : List Anim :=
  s.animationList.drop s.currentAnimation

/-- The relation between the two scenes while tasks are queued, when no array stands at two
places of the visual board: the cursor is inside the queue;
when no task is in its ascending phase, playing the pending tasks on the visual scene gives the
logical scene; when one is, it is a grab or drop task at the cursor, whose write has been made, and
playing the tasks after it gives the logical scene. -/
def Synced (s : State) : Prop :=
  s.currentAnimation ≤ s.animationList.length ∧ s.map.Distinct ∧
    (s.isMovingUp = false → replay s.visual s.pending = s.logical) ∧
    (s.isMovingUp = true → ∃ a rest, s.pending = a :: rest ∧ a.isHand = true ∧
      replay s.visual rest = s.logical)

/-- A motion command or a frame. -/
inductive Motion where
  | moveLeft
  | moveRight
  | grab
  | drop
  | render (dt : Nat)
deriving DecidableEq, Repr

/-- The event of a motion command or frame. -/
def Motion.toEvent : Motion → Event
  | .moveLeft => Event.moveLeft
  | .moveRight => Event.moveRight
  | .grab => Event.grab
  | .drop => Event.drop
  | .render dt => Event.render dt

/-- The state in which `examLevel(5)` calls `setMap` on a fresh arm with a 900 x 400 canvas. -/
def level5Base : State :=
  { construct 900 400 with columns := 3, armPosition := 0, statePosition := 0 }

/-- The board of exam level 5. -/
def level5Board : List Column :=
  [[Block.label 3, Block.label 1, Block.label 2, Block.label 4, Block.label 5]]

/-- A program for level 5 with enough frames, 1 ms apart, to play it: grab the top block, move
right, drop, move left. -/
def grabMoveDrop : List Motion :=
  [Motion.grab, Motion.moveRight, Motion.drop, Motion.moveLeft] ++
    List.replicate 44 (Motion.render 1)

/-- The four ways one call of a task can end, from state `s` to state `t` with return value
`done`: no write to the scene; a move task completing; a grab or drop task reaching the bottom,
where it writes the scene and starts ascending; a grab or drop task back at the top. -/
def Outcome (a : Anim) (s t : State) (done : Bool) : Prop :=
  (done = false ∧ t.visualScene = s.visualScene ∧ t.isMovingUp = s.isMovingUp) ∨
    (a.isHand = false ∧ done = true ∧ t.visualScene = a.effectVisual s.visualScene ∧
      t.isMovingUp = s.isMovingUp) ∨
    (a.isHand = true ∧ s.isMovingUp = false ∧ done = false ∧ t.isMovingUp = true ∧
      t.visualScene = a.effectVisual s.visualScene) ∨
    (a.isHand = true ∧ s.isMovingUp = true ∧ done = true ∧ t.isMovingUp = false ∧
      t.visualScene = s.visualScene)

/-! ## Everything the driving program and the browser can do -/

/-- A command or frame (`Event`), a call of `setMap`, or a call of `examLevel`. -/
inductive Op where
  | event (e : Event)
  | setMap (m : MapArg)
  | examLevel (l : Level)
deriving DecidableEq, Repr

/-- Whether the operation is a frame of `local.render`. -/
def Op.isFrame : Op → Bool
  | .event (.render _) => true
  | _ => false

/-- State after one operation. -/
def applyOp (s : State) : Op → State
  | .event e => step s e
  | .setMap m => setMap s m
  | .examLevel l => examLevel s l

/-- State after a sequence of operations. -/
def runOps (s : State) (ops : List Op) : State :=
  ops.foldl applyOp s

/-- One call `local.animationList[local.currentAnimation](dt)` made by a frame: the index of the
task in the queue, the function called, the value of `isMovingUp` before the call, whether the call
returned true (done), and the value of `isMovingUp` after it. -/
structure TaskCall where
  index : Nat
  task : Anim
  movingUpBefore : Bool
  done : Bool
  movingUpAfter : Bool
deriving DecidableEq, Repr

/-- The task calls of one frame: the condition
`local.animationList.length > local.currentAnimation && local.animationList[local.currentAnimation](...)`
calls the function at the cursor when there is one, and nothing else. -/
def frameCalls (s : State) (dt : Nat) : List TaskCall :=
  match s.animationList.get? s.currentAnimation with
  | some a =>
    [{ index := s.currentAnimation
       task := a
       movingUpBefore := s.isMovingUp
       done := (a.run s (if dt != 0 then dt else 9999999)).2
       movingUpAfter := (a.run s (if dt != 0 then dt else 9999999)).1.isMovingUp }]
  | none => []

/-- The task calls of one operation: only a frame makes any. -/
def taskCalls (s : State) : Op → List TaskCall
  | .event (.render dt) => frameCalls s dt
  | _ => []

/-- All task calls during a sequence of operations, in order. -/
def taskTrace (s : State) : List Op → List TaskCall
  | [] => []
  | o :: ops => taskCalls s o ++ taskTrace (applyOp s o) ops

/-- What holds of the queue in every state reached from construction: the cursor is inside the
queue, and `isMovingUp` is set only while a grab or drop task is at the cursor. -/
def QueueOk (s : State) : Prop :=
  s.currentAnimation ≤ s.animationList.length ∧
    (s.isMovingUp = true →
      ∃ a, s.animationList.get? s.currentAnimation = some a ∧ a.isHand = true)

/-- Whether `renderFloor` finds a floor segment `0 .. columns` with an assigned colour. -/
def drawsColoredColumn (s : State) : Bool :=
  (List.range (s.columns + 1)).any
    (fun i => decide (i < s.coloredColumns.length) &&
      (match slotGet s.coloredColumns i with
       | some c => c != ""
       | none => false))

/-- A program for exam level 2 without any frame: load the level (column 4 ends with a green
block on top), grab that block and move left four times, to column 0, which is assigned red. -/
def carryGreenToRed : List Op :=
  [Op.examLevel (Level.exam2 ["red", "blue", "yellow", "green", "red", "green"]),
   Op.event Event.grab] ++ List.replicate 4 (Op.event Event.moveLeft)

/-- State `t` differs from `s`, as far as the scheduler goes, by tasks appended to the queue: the
cursor and `isMovingUp` are the same. -/
def Appends (s t : State) : Prop :=
  (∃ ts, t.animationList = s.animationList ++ ts) ∧
    t.currentAnimation = s.currentAnimation ∧ t.isMovingUp = s.isMovingUp

/-- A program for exam level 5: load the level, call `moveRight()` twice, then fourteen frames
1 ms apart, which play both moves. -/
def twoMovesPlayed : List Op :=
  [Op.examLevel Level.exam5, Op.event Event.moveRight, Op.event Event.moveRight] ++
    List.replicate 14 (Op.event (Event.render 1))

/-- A program for exam level 5: load the level, call `grab()`, then nine frames 1 ms apart, which
play the grab task. -/
def grabPlayed : List Op :=
  [Op.examLevel Level.exam5, Op.event Event.grab] ++
    List.replicate 9 (Op.event (Event.render 1))

/-- The argument `[c, c]` of `setMap` after `var c = [1, 2]`: one array at both indices. -/
def sharedColumn : MapArg :=
  ⟨[[Block.label 1, Block.label 2]], [some 0, some 0]⟩

/-- A fresh arm with a 900 x 400 canvas after `setMap([c, c])`. -/
def sharedColumnStart : State :=
  setMap (construct 900 400) sharedColumn

/-- One `grab()`, the first frame (no time elapsed) and seventeen frames 1 ms apart, which play the
grab task to its end. -/
def grabPlayedOut : List Motion :=
  [Motion.grab, Motion.render 0] ++ List.replicate 17 (Motion.render 1)

/-- The state after `setMap([c, c])`, `grab()` and the frames that play the grab task. -/
def sharedColumnEnd : State :=
  run sharedColumnStart (grabPlayedOut.map Motion.toEvent)

/-! ## Sparse arrays and boards -/

theorem slotGet_slotSet_same {α : Type} (l : List (Option α)) (i : Nat) (c : α) :
    slotGet (slotSet l i c) i = some c := by
  induction i generalizing l with
  | zero => cases l <;> simp [slotSet, slotGet]
  | succ i ih => cases l <;> simp [slotSet, slotGet, ih]

theorem slotGet_slotSet_ne {α : Type} (l : List (Option α)) (i j : Nat) (c : α) (h : j ≠ i) :
    slotGet (slotSet l i c) j = slotGet l j := by
  induction i generalizing l j with
  | zero =>
    cases l <;> cases j <;> simp_all [slotSet, slotGet]
  | succ i ih =>
    cases l <;> cases j <;> simp_all [slotSet, slotGet]

theorem slotSet_self {α : Type} (l : List (Option α)) (i : Nat) (c : α)
    (h : slotGet l i = some c) : slotSet l i c = l := by
  induction i generalizing l with
  | zero => cases l <;> simp_all [slotSet, slotGet]
  | succ i ih => cases l <;> simp_all [slotSet, slotGet]

theorem slotSet_slotSet {α : Type} (l : List (Option α)) (i : Nat) (c d : α) :
    slotSet (slotSet l i c) i d = slotSet l i d := by
  induction i generalizing l with
  | zero => cases l <;> simp [slotSet]
  | succ i ih => cases l <;> simp [slotSet, ih]

theorem slotCount_slotSet (l : List (Option Column)) (i : Nat) (c : Column) :
    slotCount (slotSet l i c) + ((slotGet l i).getD []).length = slotCount l + c.length := by
  induction i generalizing l with
  | zero =>
    rcases l with _ | ⟨x, l⟩
    · simp [slotSet, slotGet, slotCount]
    · cases x <;> simp [slotSet, slotGet, slotCount] <;> omega
  | succ i ih =>
    rcases l with _ | ⟨x, l⟩
    · have := ih []
      simp [slotSet, slotGet, slotCount] at this ⊢
      exact this
    · have := ih l
      cases x <;> simp [slotSet, slotGet, slotCount] at this ⊢ <;> omega

theorem Board.get_set_same (b : Board) (p : Int) (c : Column) : (b.set p c).get p = some c := by
  cases p <;> simp [Board.set, Board.get, slotGet_slotSet_same]

theorem Board.get_set_ne (b : Board) (p q : Int) (c : Column) (h : q ≠ p) :
    (b.set p c).get q = b.get q := by
  cases p <;> cases q <;> simp [Board.set, Board.get]
  · apply slotGet_slotSet_ne
    intro e
    exact h (by rw [e])
  · apply slotGet_slotSet_ne
    intro e
    exact h (by rw [e])

theorem Board.set_self (b : Board) (p : Int) (c : Column) (h : b.get p = some c) :
    b.set p c = b := by
  cases p <;> simp [Board.set, Board.get] at h ⊢ <;> rw [slotSet_self _ _ _ h]

theorem Board.set_set (b : Board) (p : Int) (c d : Column) : (b.set p c).set p d = b.set p d := by
  cases p <;> simp [Board.set, slotSet_slotSet]

theorem Board.count_set (b : Board) (p : Int) (c : Column) :
    (b.set p c).count + (b.stack p).length = b.count + c.length := by
  cases p with
  | ofNat n =>
    have := slotCount_slotSet b.cols n c
    simp [Board.set, Board.get, Board.count, Board.stack] at this ⊢
    omega
  | negSucc n =>
    have := slotCount_slotSet b.neg n c
    simp [Board.set, Board.get, Board.count, Board.stack] at this ⊢
    omega

/-! ## Conservation of blocks in the logical state -/

theorem length_dropLast_of_getLast? (col : Column) (top : Block) (h : col.getLast? = some top) :
    col.dropLast.length + 1 = col.length := by
  cases col with
  | nil => simp at h
  | cons x xs => simp [List.length_dropLast]

theorem dropLast_append_of_getLast? (col : Column) (top : Block) (h : col.getLast? = some top) :
    col.dropLast ++ [top] = col := by
  cases col with
  | nil => simp at h
  | cons x xs =>
    rw [List.getLast?_eq_getLast _ (List.cons_ne_nil x xs)] at h
    have e := List.dropLast_append_getLast (List.cons_ne_nil x xs)
    simp only [Option.some.injEq] at h
    rw [h] at e
    exact e

theorem takeTop_count (b : Board) (p : Int) :
    (takeTop b p none).1.count + (if (takeTop b p none).2.isSome then 1 else 0) = b.count := by
  unfold takeTop
  cases hg : b.get p with
  | none => simp
  | some col =>
    cases hl : col.getLast? with
    | none => simp [hl]
    | some top =>
      have h1 := Board.count_set b p col.dropLast
      have h2 := length_dropLast_of_getLast? col top hl
      simp only [Board.stack, hg, Option.getD_some] at h1
      simp only [hl, Option.isSome_some, if_true]
      omega

theorem putHeld_count (b : Board) (p : Int) (held : Option Block) :
    (putHeld b p held).1.count + (if (putHeld b p held).2.isSome then 1 else 0)
      = b.count + (if held.isSome then 1 else 0) := by
  unfold putHeld
  cases held with
  | none => simp
  | some x =>
    have h1 := Board.count_set b p ((b.get p).getD [] ++ [x])
    simp [Board.stack] at h1 ⊢
    omega

theorem logicalBlocks_grab (s : State) : logicalBlocks (grab s) = logicalBlocks s := by
  unfold grab
  cases hh : s.stateHeld with
  | some x => simp
  | none =>
    have := takeTop_count s.stateMap s.statePosition
    simp [logicalBlocks, hh] at this ⊢
    exact this

theorem logicalBlocks_dropBlock (s : State) : logicalBlocks (dropBlock s) = logicalBlocks s := by
  have := putHeld_count s.stateMap s.statePosition s.stateHeld
  simp [logicalBlocks, dropBlock] at this ⊢
  exact this

theorem logicalBlocks_scanColumn (s : State) :
    logicalBlocks (scanColumn s).1 = logicalBlocks s := by
  unfold scanColumn
  cases s.scanOverrides with
  | zero => simp
  | succ n =>
    by_cases h : s.statePosition ∈ s.scannedColumns <;> simp [h, logicalBlocks]

theorem logicalBlocks_drop (s : State) : logicalBlocks (drop s).1 = logicalBlocks s := by
  unfold drop
  by_cases hc : s.hasColoredColumns
  · simp only [hc, Bool.not_true, Bool.false_eq_true, if_false]
    cases scanBlock s with
    | none => exact logicalBlocks_dropBlock s
    | some c =>
      by_cases hn : strictNe c (scanColumn (dropBlock s)).2
      · simp only [hn, if_true]
        rw [logicalBlocks_grab, logicalBlocks_scanColumn, logicalBlocks_dropBlock]
      · simp only [hn]
        rw [if_neg (by simp), logicalBlocks_scanColumn, logicalBlocks_dropBlock]
  · simp only [hc, Bool.not_false, if_true]
    exact logicalBlocks_dropBlock s

/-- C1. Conservation: for every state and every finite sequence of `grab()` and `drop()` calls,
whether or not `hasColoredColumns` is set, the number of blocks in the logical columns plus one if
a block is held is the same after the sequence as before it. -/
theorem conservation_grab_drop (s : State) (calls : List HandCall) :
    logicalBlocks (run s (calls.map HandCall.toEvent)) = logicalBlocks s := by
  induction calls generalizing s with
  | nil => rfl
  | cons c rest ih =>
    have hstep : logicalBlocks (step s c.toEvent) = logicalBlocks s := by
      cases c
      · exact logicalBlocks_grab s
      · exact logicalBlocks_drop s
    simp only [List.map_cons, run, List.foldl_cons] at ih ⊢
    rw [ih, hstep]

/-! ## Colour check of `drop()` -/

theorem scanColumn_dropBlock_snd (s : State) :
    (scanColumn (dropBlock s)).2 = (scanColumn s).2 := by
  unfold scanColumn
  cases h : s.scanOverrides with
  | zero => simp [dropBlock, h, scanColumnOriginal]
  | succ n =>
    by_cases hm : s.statePosition ∈ s.scannedColumns <;>
      simp [dropBlock, h, hm, scanColumnOriginal]

theorem scanColumn_fst_logical (s : State) :
    (scanColumn s).1.stateMap = s.stateMap ∧ (scanColumn s).1.stateHeld = s.stateHeld ∧
      (scanColumn s).1.statePosition = s.statePosition := by
  unfold scanColumn
  cases s.scanOverrides with
  | zero => simp
  | succ n => by_cases hm : s.statePosition ∈ s.scannedColumns <;> simp [hm]

theorem scanBlock_eq_some (s : State) (b : Block) (h : scanBlock s = some b) :
    s.stateHeld = some b := by
  unfold scanBlock at h
  cases hh : s.stateHeld with
  | none => simp [hh] at h
  | some x =>
    by_cases ht : x.truthy <;> simp [hh, ht] at h
    rw [h]

theorem takeTop_putHeld (b : Board) (p : Int) (x : Block) :
    takeTop (putHeld b p (some x)).1 p none = ((b.set p (b.stack p)), some x) := by
  simp [takeTop, putHeld, Board.get_set_same, Board.set_set, Board.stack]

theorem Board.stack_set_stack (b : Board) (p q : Int) : (b.set p (b.stack p)).stack q = b.stack q := by
  by_cases h : q = p
  · subst h
    simp [Board.stack, Board.get_set_same]
  · simp [Board.stack, Board.get_set_ne _ _ _ _ h]

/-- When `hasColoredColumns` is set and `scan()` reports a held block that is not strictly equal to
what `scanColumn()` returns, `drop()` returns false, and the held block, the arm position and the
stack of blocks at every position are as before the call. -/
theorem drop_mismatch_restores (s : State) (b : Block) (hc : s.hasColoredColumns = true)
    (hb : scanBlock s = some b) (hne : strictNe b (scanColumn s).2 = true) :
    (drop s).2 = false ∧ (drop s).1.stateHeld = s.stateHeld ∧
      (drop s).1.statePosition = s.statePosition ∧
      ∀ p, (drop s).1.stateMap.stack p = s.stateMap.stack p := by
  have hheld := scanBlock_eq_some s b hb
  have hne2 : strictNe b (scanColumn (dropBlock s)).2 = true := by
    rw [scanColumn_dropBlock_snd]
    exact hne
  obtain ⟨hm, hh, hp⟩ := scanColumn_fst_logical (dropBlock s)
  have hg : grab (scanColumn (dropBlock s)).1 =
      { (scanColumn (dropBlock s)).1 with
        animationList := (scanColumn (dropBlock s)).1.animationList ++ [Anim.grabAnimation]
        stateMap := s.stateMap.set s.statePosition (s.stateMap.stack s.statePosition)
        stateHeld := some b } := by
    have e1 : (dropBlock s).stateHeld = none := by simp [dropBlock, putHeld, hheld]
    have e2 : (dropBlock s).stateMap = (putHeld s.stateMap s.statePosition (some b)).1 := by
      simp [dropBlock, hheld]
    have e3 : (dropBlock s).statePosition = s.statePosition := by simp [dropBlock]
    unfold grab
    rw [hh, e1]
    simp only [hm, hp, e2, e3, takeTop_putHeld]
  have hd : drop s = (grab (scanColumn (dropBlock s)).1, false) := by
    unfold drop
    simp [hc, hb, hne2]
  rw [hd, hg]
  refine ⟨rfl, hheld.symm, ?_, ?_⟩
  · show (scanColumn (dropBlock s)).1.statePosition = s.statePosition
    rw [hp]
    rfl
  · intro p
    exact Board.stack_set_stack s.stateMap s.statePosition p

/-- C2, evaluated at `holdingZero`: `hasColoredColumns` is set, the arm holds the block `0` at
column 9, and `scanColumn()` returns `#a760ad`, which differs from the block; `scan()` reports the
held block as `null`, `drop()` returns true, the block is left on column 9 and nothing is held. -/
theorem drop_zero_label_accepted :
    holdingZero.hasColoredColumns = true ∧ holdingZero.stateHeld = some (Block.label 0) ∧
      holdingZero.statePosition = 9 ∧ (scanColumn holdingZero).2 = some "#a760ad" ∧
      holdingZero.stateMap.stack 9 = [] ∧
      scanBlock holdingZero = none ∧
      (drop holdingZero).2 = true ∧ (drop holdingZero).1.stateHeld = none ∧
      (drop holdingZero).1.stateMap.stack 9 = [Block.label 0] := by
  decide

/-! ## Moves of the logical arm -/

/-- The guard of `moveRight()` reads the visual position `local.arm.position` and lets the move
through as long as that position is at most `columns - 1`. -/
theorem moveRight_of_visual_le (s : State) (h : s.armPosition + 1 ≤ (s.columns : Int)) :
    moveRight s = { s with
      animationList := s.animationList ++ [Anim.moveRightAnimation]
      statePosition := s.statePosition + 1 } := by
  unfold moveRight
  rw [if_neg (by omega)]

/-- C3, evaluated at level 5 (three columns, logical arm at column 0): three `moveRight()` calls
put the logical arm at index 3, outside `[0, columns - 1]`. -/
theorem moveRight_leaves_columns :
    level5.columns = 3 ∧ level5.statePosition = 0 ∧
      (run level5 [Event.moveRight, Event.moveRight, Event.moveRight]).statePosition = 3 := by
  decide

/-- C4, evaluated at `level5AtLastColumn`: the logical and the visual arm are at column 2 of 3 and
every queued task is finished; `moveRight()` moves the logical arm to index 3 and appends a
move-right task. -/
theorem moveRight_at_last_column :
    level5AtLastColumn.columns = 3 ∧ level5AtLastColumn.statePosition = 2 ∧
      level5AtLastColumn.armPosition = 2 ∧
      level5AtLastColumn.currentAnimation = level5AtLastColumn.animationList.length ∧
      (moveRight level5AtLastColumn).statePosition = 3 ∧
      (moveRight level5AtLastColumn).animationList =
        level5AtLastColumn.animationList ++ [Anim.moveRightAnimation] := by
  decide

/-! ## `snap()` -/

/-- The command `snap()` writes `local.blocks.map` only: the logical board, held block and arm
position are never changed by it. -/
theorem snap_logical_unchanged (s : State) :
    (snap s).1.stateMap = s.stateMap ∧ (snap s).1.stateHeld = s.stateHeld ∧
      (snap s).1.statePosition = s.statePosition := by
  unfold snap
  cases scanBlock s <;> simp

/-- C5, evaluated at level 8 with nothing held: after `snap()` the logical board still holds every
`#7e787f` block, while the visual board has lost them. -/
theorem snap_leaves_logical_board :
    scanBlock level8 = none ∧ level8.snapColor = "#7e787f" ∧
      (snap level8).1.stateMap = level8.stateMap ∧
      (snap level8).1.stateMap.stack 0 =
        [Block.color "#a760ad", Block.color "#a760ad", Block.color "#7e787f"] ∧
      (snap level8).1.map.stack 0 = [Block.color "#a760ad", Block.color "#a760ad"] ∧
      (snap level8).1.map.stack 1 = [Block.color "#a760ad"] ∧
      (snap level8).1.map.stack 2 = [Block.color "#a760ad", Block.color "#a760ad"] := by
  decide

/-! ## `grab()` against its reference definition -/

theorem reverse_eq_nil_of_getLast? (col : Column) (h : col.getLast? = none) :
    col.reverse = [] := by
  cases col with
  | nil => rfl
  | cons x xs => simp [List.getLast?_eq_getLast _ (List.cons_ne_nil x xs)] at h

theorem reverse_eq_cons_of_getLast? (col : Column) (top : Block) (h : col.getLast? = some top) :
    col.reverse = top :: col.dropLast.reverse := by
  have e := dropLast_append_of_getLast? col top h
  conv_lhs => rw [← e]
  simp

/-- C6. The command `grab()` is its reference definition: with a block already held nothing
changes, the queue included; otherwise exactly one grab task is appended and the top block of the
current column, if any, is removed from the column and becomes the held block, while an empty or
missing column leaves the board unchanged and nothing held. -/
theorem grab_eq_grabReference (s : State) : grab s = grabReference s := by
  unfold grab grabReference
  cases hh : s.stateHeld with
  | some x => simp
  | none =>
    simp only [ne_eq, not_true_eq_false, if_false, takeTop, Board.stack]
    cases hg : s.stateMap.get s.statePosition with
    | none => simp [hh]
    | some col =>
      cases hl : col.getLast? with
      | none => simp [hh, hl, reverse_eq_nil_of_getLast? col hl]
      | some top => simp [hl, reverse_eq_cons_of_getLast? col top hl]

/-! ## Grab then drop, drop then grab -/

/-- C7. With nothing held, a non-empty current column and `hasColoredColumns` unset, `grab()` makes
the former top of the current column the held block and removes it from that column, and a
`drop()` issued right after returns true and restores the logical board exactly, with nothing
held. -/
theorem grab_then_drop (s : State) (below : List Block) (top : Block)
    (hheld : s.stateHeld = none)
    (hcol : s.stateMap.get s.statePosition = some (below ++ [top]))
    (hc : s.hasColoredColumns = false) :
    (grab s).stateHeld = some top ∧
      (grab s).stateMap.get s.statePosition = some below ∧
      (∀ q, q ≠ s.statePosition → (grab s).stateMap.get q = s.stateMap.get q) ∧
      (grab s).statePosition = s.statePosition ∧
      (drop (grab s)).2 = true ∧
      (drop (grab s)).1.stateMap = s.stateMap ∧
      (drop (grab s)).1.stateHeld = none ∧
      (drop (grab s)).1.statePosition = s.statePosition := by
  have hg : grab s = { s with
      animationList := s.animationList ++ [Anim.grabAnimation]
      stateMap := s.stateMap.set s.statePosition below
      stateHeld := some top } := by
    unfold grab
    simp [hheld, takeTop, hcol]
  have hd : drop (grab s) = (dropBlock (grab s), true) := by
    unfold drop
    rw [hg]
    simp [hc]
  rw [hd, hg]
  refine ⟨rfl, ?_, ?_, rfl, rfl, ?_, ?_, rfl⟩
  · exact Board.get_set_same _ _ _
  · intro q hq
    exact Board.get_set_ne _ _ _ _ hq
  · simp [dropBlock, putHeld, Board.get_set_same, Board.set_set]
    exact Board.set_self _ _ _ hcol
  · simp [dropBlock, putHeld]

/-- Witness of C7 at exam level 5: `grab()` takes the block `5` off `[3, 1, 2, 4, 5]`. -/
theorem grab_then_drop_witness :
    (grab level5).stateHeld = some (Block.label 5) ∧
      (grab level5).stateMap.get level5.statePosition =
        some [Block.label 3, Block.label 1, Block.label 2, Block.label 4] ∧
      (∀ q, q ≠ level5.statePosition → (grab level5).stateMap.get q = level5.stateMap.get q) ∧
      (grab level5).statePosition = level5.statePosition ∧
      (drop (grab level5)).2 = true ∧
      (drop (grab level5)).1.stateMap = level5.stateMap ∧
      (drop (grab level5)).1.stateHeld = none ∧
      (drop (grab level5)).1.statePosition = level5.statePosition :=
  grab_then_drop level5 [Block.label 3, Block.label 1, Block.label 2, Block.label 4]
    (Block.label 5) (by decide) (by decide) (by decide)

/-- C8. Stack law: when the arm holds `x` and `hasColoredColumns` is unset, `drop()` followed at
once by `grab()` leaves `x` held again and the stack of blocks at every position as it was before
the push; when the current column existed before the push, the whole logical board is exactly as
before. -/
theorem drop_then_grab (s : State) (x : Block)
    (hheld : s.stateHeld = some x) (hc : s.hasColoredColumns = false) :
    (drop s).2 = true ∧
      (drop s).1.stateMap.stack s.statePosition = s.stateMap.stack s.statePosition ++ [x] ∧
      (grab (drop s).1).stateHeld = some x ∧
      (∀ p, (grab (drop s).1).stateMap.stack p = s.stateMap.stack p) ∧
      (∀ col, s.stateMap.get s.statePosition = some col →
        (grab (drop s).1).stateMap = s.stateMap) ∧
      (grab (drop s).1).statePosition = s.statePosition := by
  have hd : drop s = (dropBlock s, true) := by
    unfold drop
    simp [hc]
  have e1 : (dropBlock s).stateHeld = none := by simp [dropBlock, putHeld, hheld]
  have e2 : (dropBlock s).stateMap = (putHeld s.stateMap s.statePosition (some x)).1 := by
    simp [dropBlock, hheld]
  have hg : grab (dropBlock s) = { dropBlock s with
      animationList := (dropBlock s).animationList ++ [Anim.grabAnimation]
      stateMap := s.stateMap.set s.statePosition (s.stateMap.stack s.statePosition)
      stateHeld := some x } := by
    have e3 : (dropBlock s).statePosition = s.statePosition := rfl
    unfold grab
    rw [e1]
    simp only [e2, e3, takeTop_putHeld]
  rw [hd]
  refine ⟨rfl, ?_, ?_, ?_, ?_, ?_⟩
  · show (dropBlock s).stateMap.stack s.statePosition = _
    rw [e2]
    simp [putHeld, Board.stack, Board.get_set_same]
  · show (grab (dropBlock s)).stateHeld = some x
    rw [hg]
  · intro p
    show (grab (dropBlock s)).stateMap.stack p = _
    rw [hg]
    exact Board.stack_set_stack s.stateMap s.statePosition p
  · intro col hcol
    show (grab (dropBlock s)).stateMap = _
    rw [hg]
    show s.stateMap.set s.statePosition (s.stateMap.stack s.statePosition) = s.stateMap
    apply Board.set_self
    simp [Board.stack, hcol]
  · show (grab (dropBlock s)).statePosition = _
    rw [hg]
    rfl

/-- Witness of C8 at exam level 5 after a `grab()`: the arm holds the block `5`. -/
theorem drop_then_grab_witness :
    (drop (grab level5)).2 = true ∧
      (drop (grab level5)).1.stateMap.stack (grab level5).statePosition =
        (grab level5).stateMap.stack (grab level5).statePosition ++ [Block.label 5] ∧
      (grab (drop (grab level5)).1).stateHeld = some (Block.label 5) ∧
      (∀ p, (grab (drop (grab level5)).1).stateMap.stack p = (grab level5).stateMap.stack p) ∧
      (∀ col, (grab level5).stateMap.get (grab level5).statePosition = some col →
        (grab (drop (grab level5)).1).stateMap = (grab level5).stateMap) ∧
      (grab (drop (grab level5)).1).statePosition = (grab level5).statePosition :=
  drop_then_grab (grab level5) (Block.label 5) (by decide) (by decide)

/-! ## What frames leave alone -/

theorem moveArmDownAnimation_commandSide (s : State) (dt : Nat) :
    (moveArmDownAnimation s dt).1.commandSide = s.commandSide := by
  unfold moveArmDownAnimation
  simp only []
  split_ifs <;> rfl

theorem moveArmUpAnimation_commandSide (s : State) (dt : Nat) :
    (moveArmUpAnimation s dt).1.commandSide = s.commandSide := by
  unfold moveArmUpAnimation
  simp only []
  split_ifs <;> rfl

theorem moveRightAnimation_commandSide (s : State) (dt : Nat) :
    (moveRightAnimation s dt).1.commandSide = s.commandSide := by
  unfold moveRightAnimation
  simp only []
  split_ifs <;> rfl

theorem moveLeftAnimation_commandSide (s : State) (dt : Nat) :
    (moveLeftAnimation s dt).1.commandSide = s.commandSide := by
  unfold moveLeftAnimation
  simp only []
  split_ifs <;> rfl

theorem grabAnimation_commandSide (s : State) (dt : Nat) :
    (grabAnimation s dt).1.commandSide = s.commandSide := by
  have hd := moveArmDownAnimation_commandSide s dt
  have hu := moveArmUpAnimation_commandSide s dt
  unfold grabAnimation
  simp only []
  split_ifs <;> first | exact hd | exact hu

theorem dropAnimation_commandSide (s : State) (dt : Nat) :
    (dropAnimation s dt).1.commandSide = s.commandSide := by
  have hd := moveArmDownAnimation_commandSide s dt
  have hu := moveArmUpAnimation_commandSide s dt
  unfold dropAnimation
  simp only []
  split_ifs <;> first | exact hd | exact hu

theorem Anim.run_commandSide (a : Anim) (s : State) (dt : Nat) :
    (a.run s dt).1.commandSide = s.commandSide := by
  cases a
  · exact moveRightAnimation_commandSide s dt
  · exact moveLeftAnimation_commandSide s dt
  · exact grabAnimation_commandSide s dt
  · exact dropAnimation_commandSide s dt

theorem renderFloor_commandSide (s : State) : (renderFloor s).commandSide = s.commandSide := by
  unfold renderFloor
  split_ifs <;> rfl

theorem render_commandSide (s : State) (dt : Nat) :
    (render s dt).commandSide = s.commandSide := by
  unfold render
  simp only []
  rw [renderFloor_commandSide]
  cases s.animationList.get? s.currentAnimation with
  | none => rfl
  | some a =>
    simp only []
    generalize (if dt != 0 then dt else 9999999) = t
    have h := Anim.run_commandSide a s t
    split_ifs
    · exact h
    · exact h

/-! ## Consume-on-first-scan -/

theorem scanColumn_once_spec (s : State) (h1 : s.scanOverrides = 1) :
    (scanColumn s).2 = (if s.statePosition ∈ s.scannedColumns then none
        else coloredColumnOrNull s.coloredColumns s.statePosition) ∧
      (∀ x, x ∈ (scanColumn s).1.scannedColumns ↔ x ∈ s.scannedColumns ∨ x = s.statePosition) ∧
      (scanColumn s).1.scanOverrides = s.scanOverrides ∧
      (scanColumn s).1.coloredColumns = s.coloredColumns := by
  unfold scanColumn
  rw [h1]
  by_cases hm : s.statePosition ∈ s.scannedColumns
  · simp only [hm, if_true]
    refine ⟨trivial, ?_, h1, trivial⟩
    intro x
    constructor
    · intro hx
      exact Or.inl hx
    · rintro (hx | hx)
      · exact hx
      · rw [hx]
        exact hm
  · simp only [hm, if_false]
    refine ⟨rfl, ?_, ?_, trivial⟩
    · intro x
      simp
    · simp [h1]

theorem grab_scan_fields (s : State) :
    (grab s).scannedColumns = s.scannedColumns ∧ (grab s).scanOverrides = s.scanOverrides ∧
      (grab s).coloredColumns = s.coloredColumns := by
  unfold grab
  cases s.stateHeld <;> simp

theorem step_scan_config (s : State) (e : Event) (h1 : s.scanOverrides = 1) :
    (step s e).scanOverrides = 1 ∧ (step s e).coloredColumns = s.coloredColumns := by
  cases e with
  | moveLeft =>
    simp only [step, moveLeft]
    split_ifs <;> simp [h1]
  | moveRight =>
    simp only [step, moveRight]
    split_ifs <;> simp [h1]
  | grab =>
    obtain ⟨_, h2, h3⟩ := grab_scan_fields s
    exact ⟨by rw [step, h2, h1], h3⟩
  | drop =>
    obtain ⟨_, _, h2, h3⟩ := scanColumn_once_spec (dropBlock s) h1
    obtain ⟨_, g2, g3⟩ := grab_scan_fields (scanColumn (dropBlock s)).1
    have d2 : (dropBlock s).scanOverrides = 1 := h1
    have d3 : (dropBlock s).coloredColumns = s.coloredColumns := rfl
    simp only [step, drop]
    split_ifs
    · exact ⟨d2, d3⟩
    · cases scanBlock s with
      | none => exact ⟨d2, d3⟩
      | some c =>
        simp only []
        split_ifs
        · exact ⟨by rw [g2, h2]; exact d2, by rw [g3, h3]; exact d3⟩
        · exact ⟨by rw [h2]; exact d2, by rw [h3]; exact d3⟩
  | scan => exact ⟨h1, rfl⟩
  | scanColumn =>
    obtain ⟨_, _, h2, h3⟩ := scanColumn_once_spec s h1
    exact ⟨by rw [step, h2, h1], h3⟩
  | snap =>
    simp only [step, snap]
    cases scanBlock s <;> simp [h1]
  | render dt =>
    have h := render_commandSide s dt
    simp only [State.commandSide, Prod.mk.injEq] at h
    obtain ⟨_, _, _, _, _, _, _, _, _, hcc, _, ho, _⟩ := h
    exact ⟨by rw [step, ho, h1], hcc⟩

theorem scanCalls_spec (s : State) (e : Event) (h1 : s.scanOverrides = 1) :
    (scanCalls s e = [] ∧ (step s e).scannedColumns = s.scannedColumns) ∨
      ∃ c r, scanCalls s e = [(c, r)] ∧
        r = (if c ∈ s.scannedColumns then none else coloredColumnOrNull s.coloredColumns c) ∧
        ∀ x, x ∈ (step s e).scannedColumns ↔ x ∈ s.scannedColumns ∨ x = c := by
  cases e with
  | moveLeft =>
    left
    simp only [step, moveLeft, scanCalls]
    split_ifs <;> simp
  | moveRight =>
    left
    simp only [step, moveRight, scanCalls]
    split_ifs <;> simp
  | grab => exact Or.inl ⟨rfl, (grab_scan_fields s).1⟩
  | scan => exact Or.inl ⟨rfl, rfl⟩
  | snap =>
    left
    simp only [step, snap, scanCalls]
    cases scanBlock s <;> simp
  | render dt =>
    have h := render_commandSide s dt
    simp only [State.commandSide, Prod.mk.injEq] at h
    exact Or.inl ⟨rfl, h.2.2.2.2.2.2.2.2.2.2.2.2⟩
  | scanColumn =>
    right
    obtain ⟨h2, h3, _, _⟩ := scanColumn_once_spec s h1
    exact ⟨s.statePosition, (scanColumn s).2, rfl, h2, h3⟩
  | drop =>
    obtain ⟨h2, h3, _, _⟩ := scanColumn_once_spec (dropBlock s) h1
    obtain ⟨g1, _, _⟩ := grab_scan_fields (scanColumn (dropBlock s)).1
    by_cases hc : s.hasColoredColumns = true
    · cases hb : scanBlock s with
      | none =>
        left
        simp [step, drop, scanCalls, hc, hb, dropBlock]
      | some b =>
        right
        refine ⟨(dropBlock s).statePosition, (scanColumn (dropBlock s)).2, ?_, h2, ?_⟩
        · simp [scanCalls, hc, hb]
        · intro x
          have h3x := h3 x
          simp only [step, drop, hc, hb, Bool.not_true, Bool.false_eq_true, if_false]
          split_ifs
          · rw [g1]
            exact h3x
          · exact h3x
    · left
      simp [step, drop, scanCalls, hc, dropBlock]

theorem scanTrace_consume (s : State) (h1 : s.scanOverrides = 1) (es : List Event) :
    ∀ (pre : List (Int × Option String)) (c : Int) (r : Option String)
      (post : List (Int × Option String)),
      scanTrace s es = pre ++ (c, r) :: post →
        r = if c ∈ s.scannedColumns ∨ c ∈ pre.map Prod.fst then none
          else coloredColumnOrNull s.coloredColumns c := by
  induction es generalizing s with
  | nil =>
    intro pre c r post h
    simp [scanTrace] at h
  | cons e es ih =>
    intro pre c r post h
    obtain ⟨ho, hcc⟩ := step_scan_config s e h1
    rw [scanTrace] at h
    rcases scanCalls_spec s e h1 with ⟨hnil, hsame⟩ | ⟨p, v, hone, hv, hmem⟩
    · rw [hnil, List.nil_append] at h
      have := ih (step s e) ho pre c r post h
      rw [hsame, hcc] at this
      exact this
    · rw [hone] at h
      cases pre with
      | nil =>
        simp only [List.nil_append, List.singleton_append, List.cons.injEq, Prod.mk.injEq] at h
        obtain ⟨⟨hp, hr⟩, _⟩ := h
        subst hp hr
        simpa using hv
      | cons q pre =>
        simp only [List.singleton_append, List.cons_append, List.cons.injEq] at h
        obtain ⟨hq, hrest⟩ := h
        have := ih (step s e) ho pre c r post hrest
        rw [hcc] at this
        rw [this]
        have e1 : (c ∈ (step s e).scannedColumns ∨ c ∈ pre.map Prod.fst) ↔
            (c ∈ s.scannedColumns ∨ c ∈ (q :: pre).map Prod.fst) := by
          rw [hmem c, ← hq]
          simp only [List.map_cons, List.mem_cons]
          tauto
        simp only [e1]

/-- C9 as stated fails at level 3: the program `carryRedToColumn1` never calls `scanColumn()`, it
leaves the arm at column 1, which is assigned red, and the first `scanColumn()` of the caller
there returns `null`, because the `drop()` at column 1 has made the first invocation. -/
theorem first_caller_scan_consumed_by_drop :
    level3.scanOverrides = 1 ∧ level3.scannedColumns = [] ∧
      Event.scanColumn ∉ carryRedToColumn1 ∧
      (run level3 carryRedToColumn1).statePosition = 1 ∧
      coloredColumnOrNull (run level3 carryRedToColumn1).coloredColumns 1 = some "red" ∧
      (scanColumn (run level3 carryRedToColumn1)).2 = none := by
  decide

/-- C9, amended. In a state with the one `scanColumn` wrapper of exam level 3 installed and no
column recorded as scanned, for every sequence of events and every invocation of `scanColumn` in
it, whether the caller makes it or `drop()` does in its colour check: if no earlier invocation of
the sequence was made with the arm at the same column `c`, it returns the colour assigned to `c`
(`null` if there is none), and otherwise it returns `null`, wherever the arm has been in
between. -/
theorem scanColumn_consume_on_first_invocation (s : State) (h1 : s.scanOverrides = 1)
    (h2 : s.scannedColumns = []) (es : List Event)
    (pre : List (Int × Option String)) (c : Int) (r : Option String)
    (post : List (Int × Option String)) (h : scanTrace s es = pre ++ (c, r) :: post) :
    r = if c ∈ pre.map Prod.fst then none else coloredColumnOrNull s.coloredColumns c := by
  have := scanTrace_consume s h1 es pre c r post h
  rw [h2] at this
  simp only [List.not_mem_nil, false_or] at this
  exact this

/-- Witness of the amended C9 at level 3: in `carryRedToColumn1` followed by a `scanColumn()` of
the caller, the invocation by `drop()` at column 1 returns red and the caller's returns `null`. -/
theorem scanColumn_consume_on_first_invocation_witness :
    scanTrace level3 (carryRedToColumn1 ++ [Event.scanColumn]) = [(1, some "red"), (1, none)] ∧
      (none : Option String) =
        if (1 : Int) ∈ [((1 : Int), some "red")].map Prod.fst then none
        else coloredColumnOrNull level3.coloredColumns 1 :=
  ⟨by decide,
    scanColumn_consume_on_first_invocation level3 (by decide) (by decide)
      (carryRedToColumn1 ++ [Event.scanColumn]) [(1, some "red")] 1 none [] (by decide)⟩

/-! ## Reading the visual board -/

theorem get?_set_same (A : List Column) (r : Nat) (c : Column) (h : r < A.length) :
    (A.set r c).get? r = some c := by
  rw [List.get?_eq_getElem?]
  exact List.getElem?_set_self h

theorem get?_set_other (A : List Column) (r q : Nat) (c : Column) (h : r ≠ q) :
    (A.set r c).get? q = A.get? q := by
  rw [List.get?_eq_getElem?, List.get?_eq_getElem?]
  exact List.getElem?_set_ne h

theorem get?_append_lt (A : List Column) (c : Column) (r : Nat) (h : r < A.length) :
    (A ++ [c]).get? r = A.get? r := by
  rw [List.get?_eq_getElem?, List.get?_eq_getElem?]
  exact List.getElem?_append_left h

theorem slotGet_map_bind (g : Nat → Option Column) (l : List (Option Nat)) (i : Nat) :
    slotGet (l.map (fun r => r.bind g)) i = (slotGet l i).bind g := by
  induction l generalizing i with
  | nil => rfl
  | cons x rest ih =>
    cases i with
    | zero => rfl
    | succ i => exact ih i

theorem VisualBoard.view_get (vb : VisualBoard) (p : Int) : vb.view.get p = vb.get p := by
  cases p with
  | ofNat n =>
    show slotGet (vb.cols.map (fun r => r.bind vb.arrays.get?)) n = _
    rw [slotGet_map_bind]
    show _ = match slotGet vb.cols n with
      | some r => vb.arrays.get? r
      | none => none
    cases slotGet vb.cols n <;> rfl
  | negSucc n =>
    show slotGet (vb.neg.map (fun r => r.bind vb.arrays.get?)) n = _
    rw [slotGet_map_bind]
    show _ = match slotGet vb.neg n with
      | some r => vb.arrays.get? r
      | none => none
    cases slotGet vb.neg n <;> rfl

theorem map_bind_set_of_absent (A : List Column) (r : Nat) (c : Column) :
    ∀ l : List (Option Nat), (∀ i, slotGet l i ≠ some r) →
      l.map (fun x => x.bind (A.set r c).get?) = l.map (fun x => x.bind A.get?) := by
  intro l
  induction l with
  | nil => intro _; rfl
  | cons x rest ih =>
    intro h
    have hx : x ≠ some r := h 0
    have hrest : ∀ i, slotGet rest i ≠ some r := fun i => h (i + 1)
    rw [List.map_cons, List.map_cons, ih hrest]
    congr 1
    cases x with
    | none => rfl
    | some q =>
      have hq : r ≠ q := fun e => hx (by rw [e])
      exact get?_set_other A r q c hq

theorem map_bind_set_of_unique (A : List Column) (r : Nat) (c : Column) (hr : r < A.length) :
    ∀ (l : List (Option Nat)) (n : Nat), slotGet l n = some r →
      (∀ i, i ≠ n → slotGet l i ≠ some r) →
      l.map (fun x => x.bind (A.set r c).get?) = slotSet (l.map (fun x => x.bind A.get?)) n c := by
  intro l
  induction l with
  | nil =>
    intro n h _
    simp [slotGet] at h
  | cons x rest ih =>
    intro n h hu
    cases n with
    | zero =>
      have hx : x = some r := h
      have hrest : ∀ i, slotGet rest i ≠ some r := fun i => hu (i + 1) (Nat.succ_ne_zero i)
      rw [List.map_cons, List.map_cons, map_bind_set_of_absent A r c rest hrest, hx]
      show (A.set r c).get? r :: _ = some c :: _
      rw [get?_set_same A r c hr]
    | succ n =>
      have hx : x ≠ some r := hu 0 (Nat.succ_ne_zero n).symm
      have hrest : ∀ i, i ≠ n → slotGet rest i ≠ some r :=
        fun i hi => hu (i + 1) (fun e => hi (Nat.succ.inj e))
      rw [List.map_cons, List.map_cons, ih n h hrest]
      show _ = x.bind A.get? :: slotSet (rest.map (fun x => x.bind A.get?)) n c
      congr 1
      cases x with
      | none => rfl
      | some q =>
        have hq : r ≠ q := fun e => hx (by rw [e])
        exact get?_set_other A r q c hq

theorem map_bind_slotSet (g : Nat → Option Column) (x : Nat) (y : Column) (hx : g x = some y) :
    ∀ (n : Nat) (l : List (Option Nat)),
      (slotSet l n x).map (fun r => r.bind g) = slotSet (l.map (fun r => r.bind g)) n y := by
  intro n
  induction n with
  | zero =>
    intro l
    cases l <;> simp [slotSet, hx]
  | succ n ih =>
    intro l
    cases l with
    | nil =>
      have := ih []
      simp only [List.map_nil] at this
      simp [slotSet, this]
    | cons a rest => simp [slotSet, ih rest]

theorem map_bind_append_of_lt (A : List Column) (c : Column) :
    ∀ l : List (Option Nat), (∀ i r, slotGet l i = some r → r < A.length) →
      l.map (fun x => x.bind (A ++ [c]).get?) = l.map (fun x => x.bind A.get?) := by
  intro l
  induction l with
  | nil => intro _; rfl
  | cons x rest ih =>
    intro h
    have hrest : ∀ i r, slotGet rest i = some r → r < A.length := fun i r hi => h (i + 1) r hi
    rw [List.map_cons, List.map_cons, ih hrest]
    congr 1
    cases x with
    | none => rfl
    | some q => exact get?_append_lt A c q (h 0 q rfl)

theorem VisualBoard.write_view (vb : VisualBoard) (hd : vb.Distinct) (p : Int) (r : Nat)
    (c : Column) (hr : vb.ref p = some r) : (vb.write p c).view = vb.view.set p c := by
  obtain ⟨hinj, hlt⟩ := hd
  have hrl := hlt p r hr
  have hw : vb.write p c = { vb with arrays := vb.arrays.set r c } := by
    unfold VisualBoard.write
    rw [hr]
  rw [hw]
  cases p with
  | ofNat n =>
    have hcols : ∀ i, i ≠ n → slotGet vb.cols i ≠ some r := by
      intro i hi e
      have := hinj (Int.ofNat i) (Int.ofNat n) r e hr
      exact hi (Int.ofNat.inj this)
    have hneg : ∀ i, slotGet vb.neg i ≠ some r := by
      intro i e
      have := hinj (Int.negSucc i) (Int.ofNat n) r e hr
      exact Int.noConfusion this
    show Board.mk _ _ = Board.mk _ _
    rw [map_bind_set_of_unique vb.arrays r c hrl vb.cols n hr hcols,
      map_bind_set_of_absent vb.arrays r c vb.neg hneg]
    rfl
  | negSucc n =>
    have hneg : ∀ i, i ≠ n → slotGet vb.neg i ≠ some r := by
      intro i hi e
      have := hinj (Int.negSucc i) (Int.negSucc n) r e hr
      exact hi (Int.negSucc.inj this)
    have hcols : ∀ i, slotGet vb.cols i ≠ some r := by
      intro i e
      have := hinj (Int.ofNat i) (Int.negSucc n) r e hr
      exact Int.noConfusion this
    show Board.mk _ _ = Board.mk _ _
    rw [map_bind_set_of_unique vb.arrays r c hrl vb.neg n hr hneg,
      map_bind_set_of_absent vb.arrays r c vb.cols hcols]
    rfl

theorem VisualBoard.assign_view (vb : VisualBoard) (hd : vb.Distinct) (p : Int) (c : Column) :
    (vb.assign p c).view = vb.view.set p c := by
  obtain ⟨_, hlt⟩ := hd
  have hcols : ∀ i r, slotGet vb.cols i = some r → r < vb.arrays.length :=
    fun i r h => hlt (Int.ofNat i) r h
  have hneg : ∀ i r, slotGet vb.neg i = some r → r < vb.arrays.length :=
    fun i r h => hlt (Int.negSucc i) r h
  have hnew : (vb.arrays ++ [c]).get? vb.arrays.length = some c := by
    rw [List.get?_eq_getElem?]
    exact List.getElem?_concat_length vb.arrays c
  cases p with
  | ofNat n =>
    show Board.mk
        ((slotSet vb.cols n vb.arrays.length).map (fun r => r.bind (vb.arrays ++ [c]).get?))
        (vb.neg.map (fun r => r.bind (vb.arrays ++ [c]).get?)) = _
    rw [map_bind_slotSet (vb.arrays ++ [c]).get? vb.arrays.length c hnew n vb.cols,
      map_bind_append_of_lt vb.arrays c vb.cols hcols,
      map_bind_append_of_lt vb.arrays c vb.neg hneg]
    rfl
  | negSucc n =>
    show Board.mk
        (vb.cols.map (fun r => r.bind (vb.arrays ++ [c]).get?))
        ((slotSet vb.neg n vb.arrays.length).map (fun r => r.bind (vb.arrays ++ [c]).get?)) = _
    rw [map_bind_slotSet (vb.arrays ++ [c]).get? vb.arrays.length c hnew n vb.neg,
      map_bind_append_of_lt vb.arrays c vb.cols hcols,
      map_bind_append_of_lt vb.arrays c vb.neg hneg]
    rfl

theorem VisualBoard.write_distinct (vb : VisualBoard) (hd : vb.Distinct) (p : Int) (c : Column) :
    (vb.write p c).Distinct := by
  obtain ⟨hinj, hlt⟩ := hd
  unfold VisualBoard.write
  cases vb.ref p with
  | none => exact ⟨hinj, hlt⟩
  | some r =>
    refine ⟨hinj, ?_⟩
    intro q x hq
    show x < (vb.arrays.set r c).length
    rw [List.length_set]
    exact hlt q x hq

theorem VisualBoard.ref_assign (vb : VisualBoard) (p q : Int) (c : Column) :
    (vb.assign p c).ref q = if q = p then some vb.arrays.length else vb.ref q := by
  cases p with
  | ofNat n =>
    cases q with
    | ofNat m =>
      show slotGet (slotSet vb.cols n vb.arrays.length) m = _
      by_cases h : m = n
      · subst h
        rw [slotGet_slotSet_same, if_pos rfl]
      · rw [slotGet_slotSet_ne _ _ _ _ h, if_neg (fun e => h (Int.ofNat.inj e))]
        rfl
    | negSucc m =>
      rw [if_neg (fun e => Int.noConfusion e)]
      rfl
  | negSucc n =>
    cases q with
    | ofNat m =>
      rw [if_neg (fun e => Int.noConfusion e)]
      rfl
    | negSucc m =>
      show slotGet (slotSet vb.neg n vb.arrays.length) m = _
      by_cases h : m = n
      · subst h
        rw [slotGet_slotSet_same, if_pos rfl]
      · rw [slotGet_slotSet_ne _ _ _ _ h, if_neg (fun e => h (Int.negSucc.inj e))]
        rfl

theorem VisualBoard.length_assign (vb : VisualBoard) (p : Int) (c : Column) :
    (vb.assign p c).arrays.length = vb.arrays.length + 1 := by
  cases p <;> simp [VisualBoard.assign]

theorem VisualBoard.assign_distinct (vb : VisualBoard) (hd : vb.Distinct) (p : Int)
    (c : Column) : (vb.assign p c).Distinct := by
  obtain ⟨hinj, hlt⟩ := hd
  refine ⟨?_, ?_⟩
  · intro q1 q2 r h1 h2
    rw [VisualBoard.ref_assign] at h1 h2
    by_cases e1 : q1 = p
    · by_cases e2 : q2 = p
      · rw [e1, e2]
      · rw [if_pos e1] at h1
        rw [if_neg e2] at h2
        injection h1 with h1
        have := hlt q2 r h2
        omega
    · by_cases e2 : q2 = p
      · rw [if_neg e1] at h1
        rw [if_pos e2] at h2
        injection h2 with h2
        have := hlt q1 r h1
        omega
      · rw [if_neg e1] at h1
        rw [if_neg e2] at h2
        exact hinj q1 q2 r h1 h2
  · intro q r h
    rw [VisualBoard.ref_assign] at h
    rw [VisualBoard.length_assign]
    by_cases e : q = p
    · rw [if_pos e] at h
      injection h with h
      omega
    · rw [if_neg e] at h
      have := hlt q r h
      omega

theorem VisualBoard.ref_of_get (vb : VisualBoard) (p : Int) (col : Column)
    (h : vb.get p = some col) : ∃ r, vb.ref p = some r := by
  unfold VisualBoard.get at h
  cases hr : vb.ref p with
  | none => simp [hr] at h
  | some r => exact ⟨r, rfl⟩

theorem takeTopVisual_view (vb : VisualBoard) (hd : vb.Distinct) (p : Int)
    (held : Option Block) :
    (takeTopVisual vb p held).1.view = (takeTop vb.view p held).1 ∧
      (takeTopVisual vb p held).2 = (takeTop vb.view p held).2 ∧
      (takeTopVisual vb p held).1.Distinct := by
  cases hg : vb.get p with
  | none =>
    have e1 : takeTopVisual vb p held = (vb, held) := by
      unfold takeTopVisual
      simp only [hg]
    have e2 : takeTop vb.view p held = (vb.view, held) := by
      unfold takeTop
      simp only [VisualBoard.view_get, hg]
    rw [e1, e2]
    exact ⟨rfl, rfl, hd⟩
  | some col =>
    cases hl : col.getLast? with
    | none =>
      have e1 : takeTopVisual vb p held = (vb, held) := by
        unfold takeTopVisual
        simp only [hg, hl]
      have e2 : takeTop vb.view p held = (vb.view, held) := by
        unfold takeTop
        simp only [VisualBoard.view_get, hg, hl]
      rw [e1, e2]
      exact ⟨rfl, rfl, hd⟩
    | some top =>
      have e1 : takeTopVisual vb p held = (vb.write p col.dropLast, some top) := by
        unfold takeTopVisual
        simp only [hg, hl]
      have e2 : takeTop vb.view p held = (vb.view.set p col.dropLast, some top) := by
        unfold takeTop
        simp only [VisualBoard.view_get, hg, hl]
      rw [e1, e2]
      obtain ⟨r, hr⟩ := vb.ref_of_get p col hg
      exact ⟨vb.write_view hd p r _ hr, rfl, vb.write_distinct hd p _⟩

theorem putHeldVisual_view (vb : VisualBoard) (hd : vb.Distinct) (p : Int)
    (held : Option Block) :
    (putHeldVisual vb p held).1.view = (putHeld vb.view p held).1 ∧
      (putHeldVisual vb p held).2 = (putHeld vb.view p held).2 ∧
      (putHeldVisual vb p held).1.Distinct := by
  cases held with
  | none => exact ⟨rfl, rfl, hd⟩
  | some x =>
    cases hg : vb.get p with
    | some col =>
      have e1 : putHeldVisual vb p (some x) = (vb.write p (col ++ [x]), none) := by
        unfold putHeldVisual
        simp only [hg, Option.getD_some]
      have e2 : putHeld vb.view p (some x) = (vb.view.set p (col ++ [x]), none) := by
        unfold putHeld
        simp only [VisualBoard.view_get, hg, Option.getD_some]
      rw [e1, e2]
      obtain ⟨r, hr⟩ := vb.ref_of_get p col hg
      exact ⟨vb.write_view hd p r _ hr, rfl, vb.write_distinct hd p _⟩
    | none =>
      have hd1 := vb.assign_distinct hd p []
      have hr1 : (vb.assign p []).ref p = some vb.arrays.length := by
        rw [VisualBoard.ref_assign, if_pos rfl]
      have hg1 : (vb.assign p []).get p = some [] := by
        rw [← VisualBoard.view_get, vb.assign_view hd p [], Board.get_set_same]
      have e1 : putHeldVisual vb p (some x) = ((vb.assign p []).write p [x], none) := by
        unfold putHeldVisual
        simp only [hg, hg1, Option.getD_some, List.nil_append]
      have e2 : putHeld vb.view p (some x) = (vb.view.set p [x], none) := by
        unfold putHeld
        simp only [VisualBoard.view_get, hg, Option.getD_none, List.nil_append]
      rw [e1, e2]
      refine ⟨?_, rfl, (vb.assign p []).write_distinct hd1 p _⟩
      show ((vb.assign p []).write p [x]).view = vb.view.set p [x]
      rw [(vb.assign p []).write_view hd1 p _ _ hr1, vb.assign_view hd p [], Board.set_set]

theorem Anim.effectVisual_view (a : Anim) (v : VisualScene) (hd : v.board.Distinct) :
    (a.effectVisual v).view = a.effect v.view ∧ (a.effectVisual v).board.Distinct := by
  cases a with
  | moveRightAnimation => exact ⟨rfl, hd⟩
  | moveLeftAnimation => exact ⟨rfl, hd⟩
  | grabAnimation =>
    obtain ⟨h1, h2, h3⟩ := takeTopVisual_view v.board hd v.position v.held
    refine ⟨?_, h3⟩
    simp only [Anim.effectVisual, Anim.effect, VisualScene.view, h1, h2]
  | dropAnimation =>
    obtain ⟨h1, h2, h3⟩ := putHeldVisual_view v.board hd v.position v.held
    refine ⟨?_, h3⟩
    simp only [Anim.effectVisual, Anim.effect, VisualScene.view, h1, h2]

/-! ## The visual scene follows the logical scene -/

theorem replay_append (v : Scene) (xs ys : List Anim) :
    replay v (xs ++ ys) = replay (replay v xs) ys := by
  simp [replay, List.foldl_append]

theorem replay_cons (v : Scene) (a : Anim) (xs : List Anim) :
    replay v (a :: xs) = replay (a.effect v) xs := rfl

theorem pending_of_get? (s : State) (a : Anim)
    (h : s.animationList.get? s.currentAnimation = some a) :
    s.currentAnimation < s.animationList.length ∧
      s.pending = a :: s.animationList.drop (s.currentAnimation + 1) := by
  rw [List.get?_eq_getElem?, List.getElem?_eq_some_iff] at h
  obtain ⟨hlt, ha⟩ := h
  refine ⟨hlt, ?_⟩
  unfold State.pending
  rw [List.drop_eq_getElem_cons hlt, ha]

theorem commandSide_fields (s t : State) (h : t.commandSide = s.commandSide) :
    t.animationList = s.animationList ∧ t.logical = s.logical := by
  simp only [State.commandSide, Prod.mk.injEq] at h
  obtain ⟨_, _, _, _, _, hq, hp, hm, hh, _⟩ := h
  exact ⟨hq, by simp [State.logical, hp, hm, hh]⟩

theorem synced_of_append (s t : State) (ts : List Anim)
    (hq : t.animationList = s.animationList ++ ts) (hl : t.logical = replay s.logical ts)
    (hvs : t.visualScene = s.visualScene) (hc : t.currentAnimation = s.currentAnimation)
    (hm : t.isMovingUp = s.isMovingUp) (h : Synced s) : Synced t := by
  obtain ⟨hle, hdist, hdown, hup⟩ := h
  have hv : t.visual = s.visual := congrArg VisualScene.view hvs
  have hmap : t.map = s.map := congrArg VisualScene.board hvs
  have hp : t.pending = s.pending ++ ts := by
    unfold State.pending
    rw [hq, hc, List.drop_append_of_le_length hle]
  refine ⟨?_, ?_, ?_, ?_⟩
  · rw [hq, hc, List.length_append]
    omega
  · rw [hmap]
    exact hdist
  · intro h0
    rw [hm] at h0
    rw [hp, hv, replay_append, hdown h0, hl]
  · intro h1
    rw [hm] at h1
    obtain ⟨a, rest, hpa, hhand, hr⟩ := hup h1
    refine ⟨a, rest ++ ts, ?_, hhand, ?_⟩
    · rw [hp, hpa]
      rfl
    · rw [hv, replay_append, hr, hl]

theorem synced_congr (s t : State) (hq : t.animationList = s.animationList)
    (hl : t.logical = s.logical) (hv : t.visualScene = s.visualScene)
    (hc : t.currentAnimation = s.currentAnimation) (hm : t.isMovingUp = s.isMovingUp)
    (h : Synced s) : Synced t :=
  synced_of_append s t [] (by rw [hq, List.append_nil]) hl hv hc hm h

theorem synced_moveRight (s : State) (h : Synced s) : Synced (moveRight s) := by
  unfold moveRight
  split_ifs
  · exact h
  · exact synced_of_append s _ [Anim.moveRightAnimation] rfl rfl rfl rfl rfl h

theorem synced_moveLeft (s : State) (h : Synced s) : Synced (moveLeft s) := by
  unfold moveLeft
  split_ifs
  · exact h
  · exact synced_of_append s _ [Anim.moveLeftAnimation] rfl rfl rfl rfl rfl h

theorem synced_grab (s : State) (h : Synced s) : Synced (grab s) := by
  unfold grab
  cases hh : s.stateHeld with
  | some x => exact h
  | none =>
    refine synced_of_append s _ [Anim.grabAnimation] rfl ?_ rfl rfl rfl h
    simp [State.logical, replay, Anim.effect, hh]

theorem synced_dropBlock (s : State) (h : Synced s) : Synced (dropBlock s) :=
  synced_of_append s _ [Anim.dropAnimation] rfl rfl rfl rfl rfl h

theorem synced_scanColumn (s : State) (h : Synced s) : Synced (scanColumn s).1 := by
  unfold scanColumn
  cases s.scanOverrides with
  | zero => exact h
  | succ n =>
    simp only []
    split_ifs <;> exact h

theorem synced_drop (s : State) (h : Synced s) : Synced (drop s).1 := by
  unfold drop
  split_ifs
  · exact synced_dropBlock s h
  · cases scanBlock s with
    | none => exact synced_dropBlock s h
    | some c =>
      simp only []
      split_ifs
      · exact synced_grab _ (synced_scanColumn _ (synced_dropBlock s h))
      · exact synced_scanColumn _ (synced_dropBlock s h)

theorem moveArmDownAnimation_fields (s : State) (dt : Nat) :
    (moveArmDownAnimation s dt).1.visualScene = s.visualScene ∧
      (moveArmDownAnimation s dt).1.isMovingUp = s.isMovingUp ∧
      (moveArmDownAnimation s dt).1.currentAnimation = s.currentAnimation := by
  unfold moveArmDownAnimation
  simp only []
  split_ifs <;> exact ⟨rfl, rfl, rfl⟩

theorem moveArmUpAnimation_fields (s : State) (dt : Nat) :
    (moveArmUpAnimation s dt).1.visualScene = s.visualScene ∧
      (moveArmUpAnimation s dt).1.isMovingUp = s.isMovingUp ∧
      (moveArmUpAnimation s dt).1.currentAnimation = s.currentAnimation := by
  unfold moveArmUpAnimation
  simp only []
  split_ifs <;> exact ⟨rfl, rfl, rfl⟩

theorem moveRightAnimation_outcome (s : State) (dt : Nat) :
    (moveRightAnimation s dt).1.currentAnimation = s.currentAnimation ∧
      Outcome Anim.moveRightAnimation s (moveRightAnimation s dt).1 (moveRightAnimation s dt).2 := by
  unfold moveRightAnimation
  simp only []
  split_ifs
  · exact ⟨rfl, Or.inl ⟨rfl, rfl, rfl⟩⟩
  · exact ⟨rfl, Or.inr (Or.inl ⟨rfl, rfl, rfl, rfl⟩)⟩

theorem moveLeftAnimation_outcome (s : State) (dt : Nat) :
    (moveLeftAnimation s dt).1.currentAnimation = s.currentAnimation ∧
      Outcome Anim.moveLeftAnimation s (moveLeftAnimation s dt).1 (moveLeftAnimation s dt).2 := by
  unfold moveLeftAnimation
  simp only []
  split_ifs
  · exact ⟨rfl, Or.inl ⟨rfl, rfl, rfl⟩⟩
  · exact ⟨rfl, Or.inr (Or.inl ⟨rfl, rfl, rfl, rfl⟩)⟩

theorem grabAnimation_outcome (s : State) (dt : Nat) :
    (grabAnimation s dt).1.currentAnimation = s.currentAnimation ∧
      Outcome Anim.grabAnimation s (grabAnimation s dt).1 (grabAnimation s dt).2 := by
  obtain ⟨dv, dm, dc⟩ := moveArmDownAnimation_fields s dt
  obtain ⟨uv, um, uc⟩ := moveArmUpAnimation_fields s dt
  unfold grabAnimation
  cases hm : s.isMovingUp with
  | false =>
    simp only [Bool.not_false, if_true]
    split_ifs
    · refine ⟨dc, Or.inr (Or.inr (Or.inl ⟨rfl, hm, rfl, rfl, ?_⟩))⟩
      rw [← dv]
      rfl
    · exact ⟨dc, Or.inl ⟨rfl, dv, by rw [dm, hm]⟩⟩
  | true =>
    simp only [Bool.not_true, Bool.false_eq_true, if_false]
    split_ifs
    · exact ⟨uc, Or.inr (Or.inr (Or.inr ⟨rfl, hm, rfl, rfl, uv⟩))⟩
    · exact ⟨uc, Or.inl ⟨rfl, uv, by rw [um, hm]⟩⟩

theorem dropAnimation_outcome (s : State) (dt : Nat) :
    (dropAnimation s dt).1.currentAnimation = s.currentAnimation ∧
      Outcome Anim.dropAnimation s (dropAnimation s dt).1 (dropAnimation s dt).2 := by
  obtain ⟨dv, dm, dc⟩ := moveArmDownAnimation_fields s dt
  obtain ⟨uv, um, uc⟩ := moveArmUpAnimation_fields s dt
  unfold dropAnimation
  cases hm : s.isMovingUp with
  | false =>
    simp only [Bool.not_false, if_true]
    split_ifs
    · refine ⟨dc, Or.inr (Or.inr (Or.inl ⟨rfl, hm, rfl, rfl, ?_⟩))⟩
      rw [← dv]
      rfl
    · exact ⟨dc, Or.inl ⟨rfl, dv, by rw [dm, hm]⟩⟩
  | true =>
    simp only [Bool.not_true, Bool.false_eq_true, if_false]
    split_ifs
    · exact ⟨uc, Or.inr (Or.inr (Or.inr ⟨rfl, hm, rfl, rfl, uv⟩))⟩
    · exact ⟨uc, Or.inl ⟨rfl, uv, by rw [um, hm]⟩⟩

theorem Anim.run_outcome (a : Anim) (s : State) (dt : Nat) :
    (a.run s dt).1.currentAnimation = s.currentAnimation ∧
      Outcome a s (a.run s dt).1 (a.run s dt).2 := by
  cases a
  · exact moveRightAnimation_outcome s dt
  · exact moveLeftAnimation_outcome s dt
  · exact grabAnimation_outcome s dt
  · exact dropAnimation_outcome s dt

theorem synced_animation_step (s : State) (a : Anim) (t : Nat)
    (hget : s.animationList.get? s.currentAnimation = some a) (h : Synced s) :
    Synced (if (a.run s t).2 then
        { (a.run s t).1 with currentAnimation := (a.run s t).1.currentAnimation + 1 }
      else (a.run s t).1) := by
  obtain ⟨hq, hl⟩ := commandSide_fields s (a.run s t).1 (Anim.run_commandSide a s t)
  obtain ⟨hcur, hout⟩ := Anim.run_outcome a s t
  obtain ⟨hlt, hpend⟩ := pending_of_get? s a hget
  obtain ⟨hle, hdist, hdown, hup⟩ := h
  obtain ⟨heff, hdist1⟩ := Anim.effectVisual_view a s.visualScene hdist
  rcases hout with ⟨hd, hv, hm⟩ | ⟨hhand, hd, hvs, hm⟩ | ⟨hhand, hs, hd, hm, hvs⟩ |
    ⟨hhand, hs, hd, hm, hvs⟩
  · rw [hd]
    exact synced_congr s _ hq hl hv hcur hm ⟨hle, hdist, hdown, hup⟩
  · rw [hd]
    simp only [if_true]
    have hv : (a.run s t).1.visual = a.effect s.visual := by
      show (a.run s t).1.visualScene.view = _
      rw [hvs, heff]
      rfl
    have hmap : (a.run s t).1.map = (a.effectVisual s.visualScene).board :=
      congrArg VisualScene.board hvs
    have hb : s.isMovingUp = false := by
      cases hb : s.isMovingUp with
      | false => rfl
      | true =>
        obtain ⟨b, rest, hp, hbh, _⟩ := hup hb
        rw [hpend] at hp
        injection hp with e1 _
        rw [e1, hbh] at hhand
        exact absurd hhand (by decide)
    refine ⟨?_, ?_, ?_, ?_⟩
    · show (a.run s t).1.currentAnimation + 1 ≤ (a.run s t).1.animationList.length
      rw [hq, hcur]
      omega
    · show (a.run s t).1.map.Distinct
      rw [hmap]
      exact hdist1
    · intro _
      show replay (a.run s t).1.visual
        ((a.run s t).1.animationList.drop ((a.run s t).1.currentAnimation + 1)) =
          (a.run s t).1.logical
      rw [hv, hq, hcur, hl]
      have := hdown hb
      rw [hpend, replay_cons] at this
      exact this
    · intro h1
      have h2 : (a.run s t).1.isMovingUp = true := h1
      rw [hm, hb] at h2
      exact absurd h2 (by decide)
  · rw [hd]
    simp only [Bool.false_eq_true, if_false]
    have hv : (a.run s t).1.visual = a.effect s.visual := by
      show (a.run s t).1.visualScene.view = _
      rw [hvs, heff]
      rfl
    have hmap : (a.run s t).1.map = (a.effectVisual s.visualScene).board :=
      congrArg VisualScene.board hvs
    refine ⟨?_, ?_, ?_, ?_⟩
    · rw [hq, hcur]
      exact hle
    · rw [hmap]
      exact hdist1
    · intro h0
      rw [hm] at h0
      exact absurd h0 (by decide)
    · intro _
      refine ⟨a, s.animationList.drop (s.currentAnimation + 1), ?_, hhand, ?_⟩
      · show (a.run s t).1.animationList.drop (a.run s t).1.currentAnimation = _
        rw [hq, hcur]
        exact hpend
      · rw [hv, hl]
        have := hdown hs
        rw [hpend, replay_cons] at this
        exact this
  · rw [hd]
    simp only [if_true]
    have hv : (a.run s t).1.visual = s.visual := congrArg VisualScene.view hvs
    have hmap : (a.run s t).1.map = s.map := congrArg VisualScene.board hvs
    obtain ⟨b, rest, hp, _, hr⟩ := hup hs
    rw [hpend] at hp
    injection hp with _ e2
    refine ⟨?_, ?_, ?_, ?_⟩
    · show (a.run s t).1.currentAnimation + 1 ≤ (a.run s t).1.animationList.length
      rw [hq, hcur]
      omega
    · show (a.run s t).1.map.Distinct
      rw [hmap]
      exact hdist
    · intro _
      show replay (a.run s t).1.visual
        ((a.run s t).1.animationList.drop ((a.run s t).1.currentAnimation + 1)) =
          (a.run s t).1.logical
      rw [hv, hq, hcur, hl, e2]
      exact hr
    · intro h1
      have h2 : (a.run s t).1.isMovingUp = true := h1
      rw [hm] at h2
      exact absurd h2 (by decide)

theorem synced_renderFloor (s : State) (h : Synced s) : Synced (renderFloor s) := by
  unfold renderFloor
  split_ifs
  · exact h
  · exact h

theorem synced_render (s : State) (dt : Nat) (h : Synced s) : Synced (render s dt) := by
  unfold render
  simp only []
  apply synced_renderFloor
  cases hget : s.animationList.get? s.currentAnimation with
  | none => exact h
  | some a => exact synced_animation_step s a _ hget h

theorem synced_run (s : State) (ms : List Motion) (h : Synced s) :
    Synced (run s (ms.map Motion.toEvent)) := by
  induction ms generalizing s with
  | nil => exact h
  | cons m rest ih =>
    simp only [List.map_cons, run, List.foldl_cons]
    apply ih
    cases m with
    | moveLeft => exact synced_moveLeft s h
    | moveRight => exact synced_moveRight s h
    | grab => exact synced_grab s h
    | drop => exact synced_drop s h
    | render dt => exact synced_render s dt h

theorem converged_of_synced (s : State) (h : Synced s)
    (hdone : s.currentAnimation = s.animationList.length) : s.visual = s.logical := by
  obtain ⟨_, _, hdown, hup⟩ := h
  have hp : s.pending = [] := by
    unfold State.pending
    rw [hdone]
    exact List.drop_length _
  cases hb : s.isMovingUp with
  | false =>
    have := hdown hb
    rw [hp] at this
    exact this
  | true =>
    obtain ⟨a, rest, hpa, _⟩ := hup hb
    rw [hp] at hpa
    exact absurd hpa (by simp)

theorem slotGet_freshRefs (start count i : Nat) :
    slotGet (freshRefs start count) i = if i < count then some (start + i) else none := by
  induction count generalizing start i with
  | zero => rfl
  | succ n ih =>
    cases i with
    | zero => simp [freshRefs, slotGet]
    | succ i =>
      show slotGet (freshRefs (start + 1) n) i = _
      rw [ih]
      by_cases h : i < n
      · rw [if_pos h, if_pos (Nat.succ_lt_succ h)]
        congr 1
        omega
      · rw [if_neg h, if_neg (fun e => h (Nat.lt_of_succ_lt_succ e))]

theorem copyColumns_freshRefs (m : List Column) :
    ∀ pre : List Column,
      copyColumns (pre ++ m) (freshRefs pre.length m.length) = some (m.map some) := by
  induction m with
  | nil => intro pre; rfl
  | cons c rest ih =>
    intro pre
    have hget : (pre ++ c :: rest).get? pre.length = some c := by
      rw [List.get?_eq_getElem?, List.getElem?_append_right (Nat.le_refl _)]
      simp
    have h := ih (pre ++ [c])
    rw [List.append_assoc, List.length_append] at h
    simp only [List.singleton_append, List.length_singleton] at h
    show (match (pre ++ c :: rest).get? pre.length with
      | none => none
      | some x =>
        (copyColumns (pre ++ c :: rest) (freshRefs (pre.length + 1) rest.length)).map
          (fun done => some x :: done)) = _
    rw [hget]
    simp only [h, Option.map_some', List.map_cons]

theorem view_freshRefs (m : List Column) :
    ∀ pre : List Column,
      (freshRefs pre.length m.length).map (fun r => r.bind (pre ++ m).get?) = m.map some := by
  induction m with
  | nil => intro pre; rfl
  | cons c rest ih =>
    intro pre
    have hget : (pre ++ c :: rest).get? pre.length = some c := by
      rw [List.get?_eq_getElem?, List.getElem?_append_right (Nat.le_refl _)]
      simp
    have h := ih (pre ++ [c])
    rw [List.append_assoc, List.length_append] at h
    simp only [List.singleton_append, List.length_singleton] at h
    show (some pre.length).bind (pre ++ c :: rest).get? ::
      (freshRefs (pre.length + 1) rest.length).map (fun r => r.bind (pre ++ c :: rest).get?) = _
    rw [h]
    show (pre ++ c :: rest).get? pre.length :: _ = _
    rw [hget]
    rfl

theorem copyMap_ofColumns (m : List Column) : copyMap (MapArg.ofColumns m) = some (m.map some) :=
  copyColumns_freshRefs m []

theorem map_freshRefs_of_le (len : Nat) :
    ∀ (count start : Nat), start + count ≤ len →
      (freshRefs start count).map
        (fun r => r.bind (fun i => if i < len then some i else none)) = freshRefs start count := by
  intro count
  induction count with
  | zero => intro _ _; rfl
  | succ n ih =>
    intro start h
    show (some start).bind (fun i => if i < len then some i else none) ::
      (freshRefs (start + 1) n).map _ = some start :: freshRefs (start + 1) n
    rw [ih (start + 1) (by omega)]
    congr 1
    show (if start < len then some start else none) = some start
    rw [if_pos (by omega)]

theorem refs_ofColumns (m : List Column) : (MapArg.ofColumns m).refs = freshRefs 0 m.length :=
  map_freshRefs_of_le m.length m.length 0 (by omega)

theorem distinct_ofColumns (m : List Column) :
    (VisualBoard.mk (MapArg.ofColumns m).arrays (MapArg.ofColumns m).refs []).Distinct := by
  rw [refs_ofColumns]
  have href : ∀ (p : Int) (r : Nat),
      (VisualBoard.mk m (freshRefs 0 m.length) []).ref p = some r →
        p = Int.ofNat r ∧ r < m.length := by
    intro p r h
    cases p with
    | ofNat n =>
      have h1 : slotGet (freshRefs 0 m.length) n = some r := h
      rw [slotGet_freshRefs] at h1
      by_cases hn : n < m.length
      · rw [if_pos hn] at h1
        injection h1 with h1
        have e : n = r := by omega
        exact ⟨by rw [e], by omega⟩
      · rw [if_neg hn] at h1
        exact absurd h1 (by simp)
    | negSucc n =>
      have h1 : slotGet ([] : List (Option Nat)) n = some r := h
      simp [slotGet] at h1
  refine ⟨?_, ?_⟩
  · intro p q r hp hq
    rw [(href p r hp).1, (href q r hq).1]
  · intro p r hp
    exact (href p r hp).2

theorem synced_setMap_ofColumns (s : State) (m : List Column)
    (hq : s.animationList = []) (hcur : s.currentAnimation = 0) (hup : s.isMovingUp = false)
    (hpos : s.armPosition = s.statePosition) (hheld : s.held = none)
    (hsheld : s.stateHeld = none) : Synced (setMap s (MapArg.ofColumns m)) := by
  have e : setMap s (MapArg.ofColumns m) =
      { s with map := ⟨m, freshRefs 0 m.length, []⟩, stateMap := ⟨m.map some, []⟩ } := by
    unfold setMap
    rw [copyMap_ofColumns, refs_ofColumns]
    rfl
  rw [e]
  have hdm := distinct_ofColumns m
  rw [refs_ofColumns] at hdm
  refine ⟨?_, hdm, ?_, ?_⟩
  · show s.currentAnimation ≤ s.animationList.length
    rw [hcur]
    exact Nat.zero_le _
  · intro _
    have hv := view_freshRefs m []
    simp only [List.nil_append, List.length_nil] at hv
    show replay (Scene.mk s.armPosition
        ⟨(freshRefs 0 m.length).map (fun r => r.bind m.get?), []⟩ s.held)
        (s.animationList.drop s.currentAnimation) =
      Scene.mk s.statePosition ⟨m.map some, []⟩ s.stateHeld
    rw [hq, hv, hpos, hheld, hsheld, List.drop_nil]
    rfl
  · intro h1
    have h2 : s.isMovingUp = true := h1
    rw [hup] at h2
    exact absurd h2 (by decide)

/-- Convergence when no array stands at two places: start from the state that `setMap` gives for
an array literal of columns, each an array of its own, when the queue is empty (no task has run,
so `isMovingUp` is unset), the visual and the logical arm are at the same column and nothing is
held in either scene. After every finite sequence of `moveLeft`, `moveRight`, `grab`, `drop` and
frames, if every queued task has reported done (the cursor is at the end of the queue), the visual
board as read, the visual arm column and the visual held block equal the logical board, arm column
and held block. -/
theorem visual_converges_of_own_arrays (s : State) (m : List Column) (ms : List Motion)
    (hq : s.animationList = []) (hcur : s.currentAnimation = 0) (hup : s.isMovingUp = false)
    (hpos : s.armPosition = s.statePosition) (hheld : s.held = none)
    (hsheld : s.stateHeld = none)
    (hdone : (run (setMap s (MapArg.ofColumns m)) (ms.map Motion.toEvent)).currentAnimation =
      (run (setMap s (MapArg.ofColumns m)) (ms.map Motion.toEvent)).animationList.length) :
    (run (setMap s (MapArg.ofColumns m)) (ms.map Motion.toEvent)).map.view =
        (run (setMap s (MapArg.ofColumns m)) (ms.map Motion.toEvent)).stateMap ∧
      (run (setMap s (MapArg.ofColumns m)) (ms.map Motion.toEvent)).armPosition =
        (run (setMap s (MapArg.ofColumns m)) (ms.map Motion.toEvent)).statePosition ∧
      (run (setMap s (MapArg.ofColumns m)) (ms.map Motion.toEvent)).held =
        (run (setMap s (MapArg.ofColumns m)) (ms.map Motion.toEvent)).stateHeld := by
  have h0 := synced_setMap_ofColumns s m hq hcur hup hpos hheld hsheld
  have h := converged_of_synced _ (synced_run _ ms h0) hdone
  simp only [State.visual, State.logical, Scene.mk.injEq] at h
  exact ⟨h.2.1, h.1, h.2.2⟩

set_option maxRecDepth 100000 in
/-- Example at exam level 5: `grab()`, `moveRight()`, `drop()`, `moveLeft()` and 44 frames, after
which all four tasks are done, the block `5` lies on column 1 in both boards and both arms are
back at column 0. -/
theorem visual_converges_of_own_arrays_example :
    (run (setMap level5Base (MapArg.ofColumns level5Board))
        (grabMoveDrop.map Motion.toEvent)).animationList
        = [Anim.grabAnimation, Anim.moveRightAnimation, Anim.dropAnimation,
            Anim.moveLeftAnimation] ∧
      (run (setMap level5Base (MapArg.ofColumns level5Board))
        (grabMoveDrop.map Motion.toEvent)).stateMap.stack 1 = [Block.label 5] ∧
      (run (setMap level5Base (MapArg.ofColumns level5Board))
        (grabMoveDrop.map Motion.toEvent)).statePosition = 0 ∧
      ((run (setMap level5Base (MapArg.ofColumns level5Board))
            (grabMoveDrop.map Motion.toEvent)).map.view =
          (run (setMap level5Base (MapArg.ofColumns level5Board))
            (grabMoveDrop.map Motion.toEvent)).stateMap ∧
        (run (setMap level5Base (MapArg.ofColumns level5Board))
            (grabMoveDrop.map Motion.toEvent)).armPosition =
          (run (setMap level5Base (MapArg.ofColumns level5Board))
            (grabMoveDrop.map Motion.toEvent)).statePosition ∧
        (run (setMap level5Base (MapArg.ofColumns level5Board))
            (grabMoveDrop.map Motion.toEvent)).held =
          (run (setMap level5Base (MapArg.ofColumns level5Board))
            (grabMoveDrop.map Motion.toEvent)).stateHeld) :=
  ⟨by decide, by decide, by decide,
    visual_converges_of_own_arrays level5Base level5Board grabMoveDrop (by decide) (by decide)
      (by decide) (by decide) (by decide) (by decide) (by decide)⟩

set_option maxRecDepth 100000 in
/-- C10, evaluated at `var c = [1, 2]; setMap([c, c]); grab()` and the frames that play the grab
task. After `setMap` the queue is empty, the visual board reads as the logical board, both arms
are at column 0 and nothing is held. At the end the one task has reported done and both scenes
hold the block `2`, but the visual board reads `[[1], [1]]` where the logical board is
`[[1], [1, 2]]`: the `splice` of the grab task took the block off the one array that the visual
board has at both columns, which are separate copies in the logical board. -/
theorem shared_column_diverges :
    sharedColumnStart.animationList = [] ∧ sharedColumnStart.currentAnimation = 0 ∧
      sharedColumnStart.map.view = sharedColumnStart.stateMap ∧
      sharedColumnStart.armPosition = sharedColumnStart.statePosition ∧
      sharedColumnStart.held = none ∧ sharedColumnStart.stateHeld = none ∧
      sharedColumnEnd.animationList = [Anim.grabAnimation] ∧
      sharedColumnEnd.currentAnimation = sharedColumnEnd.animationList.length ∧
      sharedColumnEnd.armPosition = sharedColumnEnd.statePosition ∧
      sharedColumnEnd.held = some (Block.label 2) ∧
      sharedColumnEnd.stateHeld = some (Block.label 2) ∧
      sharedColumnEnd.map.stack 0 = [Block.label 1] ∧
      sharedColumnEnd.map.stack 1 = [Block.label 1] ∧
      sharedColumnEnd.stateMap.stack 0 = [Block.label 1] ∧
      sharedColumnEnd.stateMap.stack 1 = [Block.label 1, Block.label 2] ∧
      sharedColumnEnd.map.view ≠ sharedColumnEnd.stateMap := by
  decide

/-! ## The flag `hasColoredColumns` -/

theorem moveArmDownAnimation_hasColoredColumns (s : State) (dt : Nat) :
    (moveArmDownAnimation s dt).1.hasColoredColumns = s.hasColoredColumns := by
  unfold moveArmDownAnimation
  simp only []
  split_ifs <;> rfl

theorem moveArmUpAnimation_hasColoredColumns (s : State) (dt : Nat) :
    (moveArmUpAnimation s dt).1.hasColoredColumns = s.hasColoredColumns := by
  unfold moveArmUpAnimation
  simp only []
  split_ifs <;> rfl

theorem Anim.run_hasColoredColumns (a : Anim) (s : State) (dt : Nat) :
    (a.run s dt).1.hasColoredColumns = s.hasColoredColumns := by
  have hd := moveArmDownAnimation_hasColoredColumns s dt
  have hu := moveArmUpAnimation_hasColoredColumns s dt
  cases a
  · simp only [Anim.run, RobotArm.moveRightAnimation]
    split_ifs <;> rfl
  · simp only [Anim.run, RobotArm.moveLeftAnimation]
    split_ifs <;> rfl
  · simp only [Anim.run, RobotArm.grabAnimation]
    split_ifs <;> first | exact hd | exact hu
  · simp only [Anim.run, RobotArm.dropAnimation]
    split_ifs <;> first | exact hd | exact hu

theorem drawsColoredColumn_congr (s t : State) (h : t.commandSide = s.commandSide) :
    drawsColoredColumn t = drawsColoredColumn s := by
  simp only [State.commandSide, Prod.mk.injEq] at h
  obtain ⟨hc, _, _, _, _, _, _, _, _, hcc, _⟩ := h
  simp [drawsColoredColumn, hc, hcc]

theorem renderFloor_hasColoredColumns (s : State) :
    (renderFloor s).hasColoredColumns = (s.hasColoredColumns || drawsColoredColumn s) := by
  unfold renderFloor
  by_cases h : drawsColoredColumn s = true
  · have h1 := h
    unfold drawsColoredColumn at h1
    rw [if_pos h1, h]
    simp
  · have h1 := h
    unfold drawsColoredColumn at h1
    rw [if_neg h1]
    simp [h]

theorem render_hasColoredColumns (s : State) (dt : Nat) :
    (render s dt).hasColoredColumns = (s.hasColoredColumns || drawsColoredColumn s) := by
  unfold render
  simp only []
  rw [renderFloor_hasColoredColumns]
  cases s.animationList.get? s.currentAnimation with
  | none => rfl
  | some a =>
    simp only []
    generalize (if dt != 0 then dt else 9999999) = t
    have h1 := Anim.run_hasColoredColumns a s t
    have h2 := drawsColoredColumn_congr s (a.run s t).1 (Anim.run_commandSide a s t)
    split_ifs
    · rw [← h1, ← h2]
      rfl
    · rw [h1, h2]

theorem setMap_hasColoredColumns (s : State) (m : MapArg) :
    (setMap s m).hasColoredColumns = s.hasColoredColumns := by
  unfold setMap
  cases copyMap m <;> rfl

theorem examLevel_hasColoredColumns (s : State) (l : Level) :
    (examLevel s l).hasColoredColumns = s.hasColoredColumns := by
  cases l <;>
    simp only [examLevel, examLevel1, examLevel2, examLevel3, examLevel4, examLevel5, examLevel6,
      examLevel7, examLevel8, setMap_hasColoredColumns]

theorem grab_hasColoredColumns (s : State) : (grab s).hasColoredColumns = s.hasColoredColumns := by
  unfold grab
  cases s.stateHeld <;> rfl

theorem scanColumn_hasColoredColumns (s : State) :
    (scanColumn s).1.hasColoredColumns = s.hasColoredColumns := by
  unfold scanColumn
  cases s.scanOverrides with
  | zero => rfl
  | succ n =>
    simp only []
    split_ifs <;> rfl

theorem drop_hasColoredColumns (s : State) : (drop s).1.hasColoredColumns = s.hasColoredColumns := by
  unfold drop
  split_ifs
  · rfl
  · cases scanBlock s with
    | none => rfl
    | some c =>
      simp only []
      split_ifs
      · rw [grab_hasColoredColumns, scanColumn_hasColoredColumns]
        rfl
      · rw [scanColumn_hasColoredColumns]
        rfl

theorem applyOp_hasColoredColumns (s : State) (o : Op) (h : o.isFrame = false) :
    (applyOp s o).hasColoredColumns = s.hasColoredColumns := by
  cases o with
  | setMap m => exact setMap_hasColoredColumns s m
  | examLevel l => exact examLevel_hasColoredColumns s l
  | event e =>
    cases e with
    | moveLeft =>
      simp only [applyOp, step, moveLeft]
      split_ifs <;> rfl
    | moveRight =>
      simp only [applyOp, step, moveRight]
      split_ifs <;> rfl
    | grab => exact grab_hasColoredColumns s
    | drop => exact drop_hasColoredColumns s
    | scan => rfl
    | scanColumn => exact scanColumn_hasColoredColumns s
    | snap =>
      simp only [applyOp, step, snap]
      cases scanBlock s <;> rfl
    | render dt => simp [Op.isFrame] at h

theorem runOps_hasColoredColumns (s : State) (ops : List Op)
    (h : ∀ o ∈ ops, o.isFrame = false) :
    (runOps s ops).hasColoredColumns = s.hasColoredColumns := by
  induction ops generalizing s with
  | nil => rfl
  | cons o rest ih =>
    simp only [runOps, List.foldl_cons]
    have h1 := ih (applyOp s o) (fun x hx => h x (List.mem_cons_of_mem _ hx))
    simp only [runOps] at h1
    rw [h1, applyOp_hasColoredColumns s o (h o (List.mem_cons_self _ _))]

theorem drop_unrestricted (s : State) (h : s.hasColoredColumns = false) :
    drop s = (dropBlock s, true) := by
  unfold drop
  simp [h]

/-- C13. The flag `hasColoredColumns` is false after construction; no command and no level load
(`moveLeft`, `moveRight`, `grab`, `drop`, `snap`, `scan`, `scanColumn`, `setMap`, `examLevel`)
changes it; a frame sets it exactly when the floor it draws has a column with an assigned colour,
and never clears it. Hence in every state reached from construction by level loads and commands
without a frame the flag is false and `drop()` is `dropBlock()` returning true: a held block is
pushed on the current column and nothing is held, whatever colour the column is assigned. -/
theorem hasColoredColumns_set_by_floor_only :
    (∀ w h : Nat, (construct w h).hasColoredColumns = false) ∧
      (∀ (s : State) (o : Op), o.isFrame = false →
        (applyOp s o).hasColoredColumns = s.hasColoredColumns) ∧
      (∀ (s : State) (dt : Nat),
        (render s dt).hasColoredColumns = (s.hasColoredColumns || drawsColoredColumn s)) ∧
      (∀ (w h : Nat) (ops : List Op), (∀ o ∈ ops, o.isFrame = false) →
        (runOps (construct w h) ops).hasColoredColumns = false ∧
          drop (runOps (construct w h) ops) = (dropBlock (runOps (construct w h) ops), true) ∧
          ∀ x, (runOps (construct w h) ops).stateHeld = some x →
            (drop (runOps (construct w h) ops)).1.stateMap.stack
                (runOps (construct w h) ops).statePosition =
              (runOps (construct w h) ops).stateMap.stack
                (runOps (construct w h) ops).statePosition ++ [x] ∧
            (drop (runOps (construct w h) ops)).1.stateHeld = none) := by
  refine ⟨fun _ _ => rfl, applyOp_hasColoredColumns, render_hasColoredColumns, ?_⟩
  intro w h ops hops
  have hf : (runOps (construct w h) ops).hasColoredColumns = false :=
    runOps_hasColoredColumns (construct w h) ops hops
  have hd := drop_unrestricted _ hf
  refine ⟨hf, hd, ?_⟩
  intro x hx
  rw [hd]
  simp [dropBlock, putHeld, hx, Board.stack, Board.get_set_same]

/-- Witness of C13 at exam level 2 with no frame drawn: the arm holds a green block over column 0,
which is assigned red; `drop()` returns true and leaves the green block on column 0. -/
theorem hasColoredColumns_set_by_floor_only_witness :
    (runOps (construct 900 400) carryGreenToRed).stateHeld = some (Block.color "green") ∧
      (scanColumn (runOps (construct 900 400) carryGreenToRed)).2 = some "red" ∧
      (drop (runOps (construct 900 400) carryGreenToRed)).2 = true ∧
      (drop (runOps (construct 900 400) carryGreenToRed)).1.stateMap.stack 0 =
        [Block.color "green"] ∧
      ((runOps (construct 900 400) carryGreenToRed).hasColoredColumns = false ∧
        drop (runOps (construct 900 400) carryGreenToRed) =
          (dropBlock (runOps (construct 900 400) carryGreenToRed), true) ∧
        ∀ x, (runOps (construct 900 400) carryGreenToRed).stateHeld = some x →
          (drop (runOps (construct 900 400) carryGreenToRed)).1.stateMap.stack
              (runOps (construct 900 400) carryGreenToRed).statePosition =
            (runOps (construct 900 400) carryGreenToRed).stateMap.stack
              (runOps (construct 900 400) carryGreenToRed).statePosition ++ [x] ∧
          (drop (runOps (construct 900 400) carryGreenToRed)).1.stateHeld = none) :=
  ⟨by decide, by decide, by decide, by decide,
    hasColoredColumns_set_by_floor_only.2.2.2 900 400 carryGreenToRed (by decide)⟩

/-! ## The queue under commands, level loads and frames -/

theorem Appends.refl (s : State) : Appends s s :=
  ⟨⟨[], (List.append_nil _).symm⟩, rfl, rfl⟩

theorem Appends.trans {s t u : State} (h1 : Appends s t) (h2 : Appends t u) : Appends s u := by
  obtain ⟨⟨ts, hq⟩, hc, hm⟩ := h1
  obtain ⟨⟨us, hq2⟩, hc2, hm2⟩ := h2
  refine ⟨⟨ts ++ us, ?_⟩, hc2.trans hc, hm2.trans hm⟩
  rw [hq2, hq, List.append_assoc]

theorem appends_moveRight (s : State) : Appends s (moveRight s) := by
  unfold moveRight
  split_ifs
  · exact Appends.refl s
  · exact ⟨⟨[Anim.moveRightAnimation], rfl⟩, rfl, rfl⟩

theorem appends_moveLeft (s : State) : Appends s (moveLeft s) := by
  unfold moveLeft
  split_ifs
  · exact Appends.refl s
  · exact ⟨⟨[Anim.moveLeftAnimation], rfl⟩, rfl, rfl⟩

theorem appends_grab (s : State) : Appends s (grab s) := by
  unfold grab
  cases s.stateHeld with
  | some x => exact Appends.refl s
  | none => exact ⟨⟨[Anim.grabAnimation], rfl⟩, rfl, rfl⟩

theorem appends_dropBlock (s : State) : Appends s (dropBlock s) :=
  ⟨⟨[Anim.dropAnimation], rfl⟩, rfl, rfl⟩

theorem appends_scanColumn (s : State) : Appends s (scanColumn s).1 := by
  unfold scanColumn
  cases s.scanOverrides with
  | zero => exact Appends.refl s
  | succ n =>
    simp only []
    split_ifs <;> exact ⟨⟨[], (List.append_nil _).symm⟩, rfl, rfl⟩

theorem appends_drop (s : State) : Appends s (drop s).1 := by
  unfold drop
  split_ifs
  · exact appends_dropBlock s
  · cases scanBlock s with
    | none => exact appends_dropBlock s
    | some c =>
      simp only []
      split_ifs
      · exact (appends_dropBlock s).trans ((appends_scanColumn _).trans (appends_grab _))
      · exact (appends_dropBlock s).trans (appends_scanColumn _)

theorem appends_snap (s : State) : Appends s (snap s).1 := by
  unfold snap
  cases scanBlock s with
  | none => exact ⟨⟨[], (List.append_nil _).symm⟩, rfl, rfl⟩
  | some b => exact Appends.refl s

theorem appends_setMap (s : State) (m : MapArg) : Appends s (setMap s m) := by
  unfold setMap
  cases copyMap m <;> exact ⟨⟨[], (List.append_nil _).symm⟩, rfl, rfl⟩

theorem appends_examLevel (s : State) (l : Level) : Appends s (examLevel s l) := by
  cases l with
  | unknown => exact Appends.refl s
  | exam1 numbers =>
    simp only [examLevel, examLevel1]
    refine Appends.trans ?_ (appends_setMap _ _)
    exact ⟨⟨[], (List.append_nil _).symm⟩, rfl, rfl⟩
  | exam2 column4 =>
    simp only [examLevel, examLevel2]
    refine Appends.trans ?_ (appends_setMap _ _)
    exact ⟨⟨[], (List.append_nil _).symm⟩, rfl, rfl⟩
  | exam3 rawColors column0 =>
    simp only [examLevel, examLevel3]
    refine Appends.trans ?_ (appends_setMap _ _)
    exact ⟨⟨[], (List.append_nil _).symm⟩, rfl, rfl⟩
  | exam4 colors c0 c1 c2 c3 =>
    simp only [examLevel, examLevel4]
    refine Appends.trans ?_ (appends_setMap _ _)
    exact ⟨⟨[], (List.append_nil _).symm⟩, rfl, rfl⟩
  | exam5 =>
    simp only [examLevel, examLevel5]
    refine Appends.trans ?_ (appends_setMap _ _)
    exact ⟨⟨[], (List.append_nil _).symm⟩, rfl, rfl⟩
  | exam6 c0 c1 c2 c3 =>
    simp only [examLevel, examLevel6]
    refine Appends.trans ?_ (appends_setMap _ _)
    exact ⟨⟨[], (List.append_nil _).symm⟩, rfl, rfl⟩
  | exam7 column0 =>
    simp only [examLevel, examLevel7]
    refine Appends.trans ?_ (appends_setMap _ _)
    exact ⟨⟨[], (List.append_nil _).symm⟩, rfl, rfl⟩
  | exam8 =>
    simp only [examLevel, examLevel8]
    refine Appends.trans ?_ (appends_setMap _ _)
    exact ⟨⟨[], (List.append_nil _).symm⟩, rfl, rfl⟩

theorem appends_applyOp (s : State) (o : Op) (h : o.isFrame = false) :
    Appends s (applyOp s o) := by
  cases o with
  | setMap m => exact appends_setMap s m
  | examLevel l => exact appends_examLevel s l
  | event e =>
    cases e with
    | moveLeft => exact appends_moveLeft s
    | moveRight => exact appends_moveRight s
    | grab => exact appends_grab s
    | drop => exact appends_drop s
    | scan => exact Appends.refl s
    | scanColumn => exact appends_scanColumn s
    | snap => exact appends_snap s
    | render dt => simp [Op.isFrame] at h

theorem renderFloor_scheduler (s : State) :
    (renderFloor s).currentAnimation = s.currentAnimation ∧
      (renderFloor s).isMovingUp = s.isMovingUp := by
  unfold renderFloor
  split_ifs <;> exact ⟨rfl, rfl⟩

theorem render_animationList (s : State) (dt : Nat) :
    (render s dt).animationList = s.animationList :=
  (commandSide_fields s (render s dt) (render_commandSide s dt)).1

theorem render_at_end (s : State) (dt : Nat)
    (h : s.animationList.get? s.currentAnimation = none) :
    frameCalls s dt = [] ∧ (render s dt).currentAnimation = s.currentAnimation ∧
      (render s dt).isMovingUp = s.isMovingUp := by
  obtain ⟨h1, h2⟩ := renderFloor_scheduler s
  unfold frameCalls render
  simp only [h]
  exact ⟨trivial, h1, h2⟩

theorem render_at_task (s : State) (dt : Nat) (a : Anim)
    (h : s.animationList.get? s.currentAnimation = some a) :
    ∃ (t : State) (d : Bool), Outcome a s t d ∧
      frameCalls s dt = [⟨s.currentAnimation, a, s.isMovingUp, d, t.isMovingUp⟩] ∧
      (render s dt).currentAnimation = s.currentAnimation + (if d then 1 else 0) ∧
      (render s dt).isMovingUp = t.isMovingUp := by
  have hf : frameCalls s dt =
      [⟨s.currentAnimation, a, s.isMovingUp, (a.run s (if dt != 0 then dt else 9999999)).2,
        (a.run s (if dt != 0 then dt else 9999999)).1.isMovingUp⟩] := by
    unfold frameCalls
    simp only [h]
  have hr : render s dt = renderFloor
      (if (a.run s (if dt != 0 then dt else 9999999)).2 then
        { (a.run s (if dt != 0 then dt else 9999999)).1 with
          currentAnimation := (a.run s (if dt != 0 then dt else 9999999)).1.currentAnimation + 1 }
      else (a.run s (if dt != 0 then dt else 9999999)).1) := by
    unfold render
    simp only [h]
  rw [hf, hr]
  generalize (if dt != 0 then dt else 9999999) = T
  obtain ⟨hcur, hout⟩ := Anim.run_outcome a s T
  refine ⟨(a.run s T).1, (a.run s T).2, hout, rfl, ?_, ?_⟩
  · rw [(renderFloor_scheduler _).1]
    cases hd : (a.run s T).2 with
    | true =>
      simp only [if_true]
      show (a.run s T).1.currentAnimation + 1 = _
      rw [hcur]
    | false =>
      simp only [Bool.false_eq_true, if_false]
      rw [hcur]
      rfl
  · rw [(renderFloor_scheduler _).2]
    split_ifs <;> rfl

theorem taskCalls_cases (s : State) (o : Op) :
    (taskCalls s o = [] ∧ Appends s (applyOp s o)) ∨
      ∃ (a : Anim) (t : State) (d : Bool),
        s.animationList.get? s.currentAnimation = some a ∧ Outcome a s t d ∧
          taskCalls s o = [⟨s.currentAnimation, a, s.isMovingUp, d, t.isMovingUp⟩] ∧
          (applyOp s o).animationList = s.animationList ∧
          (applyOp s o).currentAnimation = s.currentAnimation + (if d then 1 else 0) ∧
          (applyOp s o).isMovingUp = t.isMovingUp := by
  by_cases hf : o.isFrame = false
  · left
    refine ⟨?_, appends_applyOp s o hf⟩
    cases o with
    | setMap m => rfl
    | examLevel l => rfl
    | event e =>
      cases e with
      | render dt => simp [Op.isFrame] at hf
      | _ => rfl
  · cases o with
    | setMap m => simp [Op.isFrame] at hf
    | examLevel l => simp [Op.isFrame] at hf
    | event e =>
      cases e with
      | render dt =>
        cases hget : s.animationList.get? s.currentAnimation with
        | none =>
          left
          obtain ⟨h1, h2, h3⟩ := render_at_end s dt hget
          exact ⟨h1, ⟨[], by
            show (render s dt).animationList = _
            rw [render_animationList, List.append_nil]⟩, h2, h3⟩
        | some a =>
          right
          obtain ⟨t, d, hout, h1, h2, h3⟩ := render_at_task s dt a hget
          exact ⟨a, t, d, rfl, hout, h1, render_animationList s dt, h2, h3⟩
      | moveLeft => simp [Op.isFrame] at hf
      | moveRight => simp [Op.isFrame] at hf
      | grab => simp [Op.isFrame] at hf
      | drop => simp [Op.isFrame] at hf
      | scan => simp [Op.isFrame] at hf
      | scanColumn => simp [Op.isFrame] at hf
      | snap => simp [Op.isFrame] at hf

theorem get?_append_of_some {l : List Anim} {n : Nat} {a : Anim} (ts : List Anim)
    (h : l.get? n = some a) : (l ++ ts).get? n = some a := by
  have hlt : n < l.length := by
    rw [List.get?_eq_getElem?, List.getElem?_eq_some_iff] at h
    exact h.1
  rw [List.get?_eq_getElem?] at h ⊢
  rw [List.getElem?_append_left hlt]
  exact h

theorem lt_length_of_get? {l : List Anim} {n : Nat} {a : Anim} (h : l.get? n = some a) :
    n < l.length := by
  rw [List.get?_eq_getElem?, List.getElem?_eq_some_iff] at h
  exact h.1

theorem applyOp_animationList (s : State) (o : Op) :
    ∃ ts, (applyOp s o).animationList = s.animationList ++ ts := by
  rcases taskCalls_cases s o with ⟨_, happ⟩ | ⟨a, t, d, _, _, _, hq, _, _⟩
  · exact happ.1
  · exact ⟨[], by rw [hq, List.append_nil]⟩

theorem runOps_animationList (s : State) (ops : List Op) :
    ∃ ts, (runOps s ops).animationList = s.animationList ++ ts := by
  induction ops generalizing s with
  | nil => exact ⟨[], (List.append_nil _).symm⟩
  | cons o rest ih =>
    obtain ⟨ts, h1⟩ := applyOp_animationList s o
    obtain ⟨us, h2⟩ := ih (applyOp s o)
    refine ⟨ts ++ us, ?_⟩
    simp only [runOps, List.foldl_cons] at h2 ⊢
    rw [h2, h1, List.append_assoc]

theorem queueOk_applyOp (s : State) (o : Op) (h : QueueOk s) : QueueOk (applyOp s o) := by
  obtain ⟨hle, hup⟩ := h
  rcases taskCalls_cases s o with ⟨_, ⟨ts, hq⟩, hc, hm⟩ | ⟨a, t, d, hget, hout, _, hq, hc, hm⟩
  · refine ⟨?_, ?_⟩
    · rw [hq, hc, List.length_append]
      omega
    · intro h1
      rw [hm] at h1
      obtain ⟨a, ha, hhand⟩ := hup h1
      exact ⟨a, by rw [hq, hc]; exact get?_append_of_some ts ha, hhand⟩
  · have hlt := lt_length_of_get? hget
    rcases hout with ⟨hd, _, hf⟩ | ⟨hhand, hd, _, hf⟩ | ⟨hhand, hs, hd, hf, _⟩ |
      ⟨hhand, hs, hd, hf, _⟩
    · refine ⟨?_, ?_⟩
      · rw [hq, hc, hd]
        simpa using hle
      · intro h1
        rw [hm, hf] at h1
        obtain ⟨b, hb, hbh⟩ := hup h1
        refine ⟨b, ?_, hbh⟩
        rw [hq, hc, hd]
        simpa using hb
    · refine ⟨?_, ?_⟩
      · rw [hq, hc, hd]
        simpa using hlt
      · intro h1
        rw [hm, hf] at h1
        obtain ⟨b, hb, hbh⟩ := hup h1
        rw [hget] at hb
        injection hb with e
        rw [e, hbh] at hhand
        exact absurd hhand (by decide)
    · refine ⟨?_, ?_⟩
      · rw [hq, hc, hd]
        simpa using hle
      · intro _
        refine ⟨a, ?_, hhand⟩
        rw [hq, hc, hd]
        simpa using hget
    · refine ⟨?_, ?_⟩
      · rw [hq, hc, hd]
        simpa using hlt
      · intro h1
        rw [hm, hf] at h1
        exact absurd h1 (by decide)

theorem queueOk_construct (w h : Nat) : QueueOk (construct w h) := by
  refine ⟨Nat.le_refl _, ?_⟩
  intro h1
  simp [construct] at h1

theorem queueOk_runOps (s : State) (ops : List Op) (h : QueueOk s) : QueueOk (runOps s ops) := by
  induction ops generalizing s with
  | nil => exact h
  | cons o rest ih => exact ih (applyOp s o) (queueOk_applyOp s o h)

theorem taskTrace_task (s : State) (ops : List Op) :
    ∀ c ∈ taskTrace s ops, (runOps s ops).animationList.get? c.index = some c.task := by
  induction ops generalizing s with
  | nil =>
    intro c hc
    simp [taskTrace] at hc
  | cons o rest ih =>
    intro c hc
    rw [taskTrace, List.mem_append] at hc
    rcases hc with hc | hc
    · rcases taskCalls_cases s o with ⟨hnil, _⟩ | ⟨a, t, d, hget, _, hone, _, _, _⟩
      · rw [hnil] at hc
        simp at hc
      · rw [hone, List.mem_singleton] at hc
        obtain ⟨ts, hts⟩ := runOps_animationList s (o :: rest)
        rw [hts, hc]
        exact get?_append_of_some ts hget
    · exact ih (applyOp s o) c hc

theorem taskTrace_order (s : State) (ops : List Op) :
    ∀ (pre : List TaskCall) (c : TaskCall) (post : List TaskCall),
      taskTrace s ops = pre ++ c :: post →
        (∀ p ∈ pre, p.index + (if p.done then 1 else 0) ≤ c.index) ∧
          s.currentAnimation ≤ c.index ∧
          (s.currentAnimation < c.index →
            ∃ p ∈ pre, p.index + 1 = c.index ∧ p.done = true) := by
  induction ops generalizing s with
  | nil =>
    intro pre c post h
    simp [taskTrace] at h
  | cons o rest ih =>
    intro pre c post h
    rw [taskTrace] at h
    rcases taskCalls_cases s o with ⟨hnil, _, hc, _⟩ | ⟨a, t, d, _, _, hone, _, hc, _⟩
    · rw [hnil, List.nil_append] at h
      have := ih (applyOp s o) pre c post h
      rw [hc] at this
      exact this
    · rw [hone] at h
      cases pre with
      | nil =>
        simp only [List.nil_append, List.singleton_append, List.cons.injEq] at h
        obtain ⟨h0, _⟩ := h
        subst h0
        refine ⟨fun p hp => absurd hp (List.not_mem_nil p), Nat.le_refl _, ?_⟩
        intro hlt
        exact absurd hlt (Nat.lt_irrefl _)
      | cons q pre =>
        simp only [List.singleton_append, List.cons_append, List.nil_append,
          List.cons.injEq] at h
        obtain ⟨hq, hrest⟩ := h
        obtain ⟨i1, i2, i3⟩ := ih (applyOp s o) pre c post hrest
        rw [hc] at i2 i3
        subst hq
        refine ⟨?_, by omega, ?_⟩
        · intro p hp
          rcases List.mem_cons.mp hp with hp | hp
          · rw [hp]
            exact i2
          · exact i1 p hp
        · intro hlt
          by_cases hnext : s.currentAnimation + (if d = true then 1 else 0) < c.index
          · obtain ⟨p, hp, hp2⟩ := i3 hnext
            exact ⟨p, List.mem_cons_of_mem _ hp, hp2⟩
          · refine ⟨_, List.mem_cons_self _ _, ?_⟩
            show s.currentAnimation + 1 = c.index ∧ d = true
            cases d with
            | true =>
              simp only [if_true] at i2 hnext
              exact ⟨by omega, rfl⟩
            | false =>
              simp only [Bool.false_eq_true, if_false] at i2 hnext
              omega

theorem taskTrace_flag (s : State) (ops : List Op) (hs : QueueOk s) :
    ∀ (pre : List TaskCall) (c : TaskCall) (post : List TaskCall),
      taskTrace s ops = pre ++ c :: post →
        (c.task.isHand = true → c.done = true →
          c.movingUpBefore = true ∧ c.movingUpAfter = false) ∧
          (c.movingUpBefore = true →
            (c.index = s.currentAnimation ∧ s.isMovingUp = true) ∨
              ∃ p ∈ pre, p.index = c.index ∧ p.movingUpBefore = false ∧
                p.done = false ∧ p.movingUpAfter = true) := by
  induction ops generalizing s with
  | nil =>
    intro pre c post h
    simp [taskTrace] at h
  | cons o rest ih =>
    intro pre c post h
    rw [taskTrace] at h
    have hs1 := queueOk_applyOp s o hs
    rcases taskCalls_cases s o with ⟨hnil, _, hc, hm⟩ | ⟨a, t, d, hget, hout, hone, _, hc, hm⟩
    · rw [hnil, List.nil_append] at h
      have := ih (applyOp s o) hs1 pre c post h
      rw [hc, hm] at this
      exact this
    · rw [hone] at h
      cases pre with
      | nil =>
        simp only [List.nil_append, List.singleton_append, List.cons.injEq] at h
        obtain ⟨h0, _⟩ := h
        subst h0
        refine ⟨?_, fun hb => Or.inl ⟨rfl, hb⟩⟩
        intro hhand hd
        simp only at hhand hd
        rcases hout with ⟨hd0, _, _⟩ | ⟨hh0, _, _, _⟩ | ⟨_, _, hd0, _, _⟩ |
          ⟨_, hs0, _, hf, _⟩
        · rw [hd0] at hd
          exact absurd hd (by decide)
        · rw [hh0] at hhand
          exact absurd hhand (by decide)
        · rw [hd0] at hd
          exact absurd hd (by decide)
        · exact ⟨hs0, hf⟩
      | cons q pre =>
        simp only [List.singleton_append, List.cons_append, List.nil_append,
          List.cons.injEq] at h
        obtain ⟨hq, hrest⟩ := h
        obtain ⟨i1, i2⟩ := ih (applyOp s o) hs1 pre c post hrest
        subst hq
        refine ⟨i1, ?_⟩
        intro hb
        rcases i2 hb with ⟨hidx, hflag⟩ | ⟨p, hp, hp2⟩
        · rw [hc] at hidx
          rw [hm] at hflag
          rcases hout with ⟨hd0, _, hf⟩ | ⟨hh0, _, _, hf⟩ | ⟨_, hs0, hd0, hf, _⟩ |
            ⟨_, _, _, hf, _⟩
          · left
            rw [hd0] at hidx
            rw [hf] at hflag
            exact ⟨by simpa using hidx, hflag⟩
          · rw [hf] at hflag
            obtain ⟨b, hb1, hb2⟩ := hs.2 hflag
            rw [hget] at hb1
            injection hb1 with e
            rw [e, hb2] at hh0
            exact absurd hh0 (by decide)
          · right
            rw [hd0] at hidx
            refine ⟨_, List.mem_cons_self _ _, ?_, hs0, hd0, hf⟩
            simpa using hidx.symm
          · rw [hf] at hflag
            exact absurd hflag (by decide)
        · exact Or.inr ⟨p, List.mem_cons_of_mem _ hp, hp2⟩

/-! ## The scheduler -/

/-- C11. The scheduler is a monotonic FIFO. A frame calls the task at the cursor and no other, and
none when the cursor is at the end of the queue; the cursor goes up by one when that call returns
done and stays otherwise. Every operation leaves the queue as it was or with tasks appended, a
frame leaves it as it was, and no command or level load moves the cursor. Hence in every state
reached from construction the cursor is at most the queue length, every call made was of the task
that the final queue holds at that index, the indices of the calls never go down, a task is not
called again after it has returned done, and before any call of the task at index `k + 1` the task
at index `k` has returned done. -/
theorem scheduler_monotonic_fifo :
    (∀ (s : State) (dt : Nat),
      (s.animationList.length ≤ s.currentAnimation →
        frameCalls s dt = [] ∧ (render s dt).currentAnimation = s.currentAnimation) ∧
      (∀ a, s.animationList.get? s.currentAnimation = some a →
        ∃ d up, frameCalls s dt = [⟨s.currentAnimation, a, s.isMovingUp, d, up⟩] ∧
          (render s dt).currentAnimation = s.currentAnimation + (if d then 1 else 0))) ∧
    (∀ (s : State) (o : Op),
      (∃ ts, (applyOp s o).animationList = s.animationList ++ ts) ∧
      (o.isFrame = true → (applyOp s o).animationList = s.animationList) ∧
      (o.isFrame = false → (applyOp s o).currentAnimation = s.currentAnimation)) ∧
    (∀ (w h : Nat) (ops : List Op),
      (runOps (construct w h) ops).currentAnimation ≤
        (runOps (construct w h) ops).animationList.length ∧
      (∀ c ∈ taskTrace (construct w h) ops,
        (runOps (construct w h) ops).animationList.get? c.index = some c.task) ∧
      (∀ (pre : List TaskCall) (c : TaskCall) (post : List TaskCall),
        taskTrace (construct w h) ops = pre ++ c :: post →
          (∀ p ∈ pre, p.index + (if p.done then 1 else 0) ≤ c.index) ∧
          (∀ k, c.index = k + 1 → ∃ p ∈ pre, p.index = k ∧ p.done = true))) := by
  refine ⟨?_, ?_, ?_⟩
  · intro s dt
    refine ⟨?_, ?_⟩
    · intro hle
      have hnone : s.animationList.get? s.currentAnimation = none := by
        rw [List.get?_eq_getElem?]
        exact List.getElem?_eq_none hle
      obtain ⟨h1, h2, _⟩ := render_at_end s dt hnone
      exact ⟨h1, h2⟩
    · intro a ha
      obtain ⟨t, d, _, h1, h2, _⟩ := render_at_task s dt a ha
      exact ⟨d, t.isMovingUp, h1, h2⟩
  · intro s o
    refine ⟨applyOp_animationList s o, ?_, ?_⟩
    · intro hf
      cases o with
      | setMap m => simp [Op.isFrame] at hf
      | examLevel l => simp [Op.isFrame] at hf
      | event e =>
        cases e with
        | render dt => exact render_animationList s dt
        | moveLeft => simp [Op.isFrame] at hf
        | moveRight => simp [Op.isFrame] at hf
        | grab => simp [Op.isFrame] at hf
        | drop => simp [Op.isFrame] at hf
        | scan => simp [Op.isFrame] at hf
        | scanColumn => simp [Op.isFrame] at hf
        | snap => simp [Op.isFrame] at hf
    · intro hf
      exact (appends_applyOp s o hf).2.1
  · intro w h ops
    refine ⟨(queueOk_runOps _ ops (queueOk_construct w h)).1, taskTrace_task _ ops, ?_⟩
    intro pre c post htrace
    obtain ⟨h1, _, h3⟩ := taskTrace_order (construct w h) ops pre c post htrace
    refine ⟨h1, ?_⟩
    intro k hk
    have hlt : (construct w h).currentAnimation < c.index := by
      rw [hk]
      exact Nat.succ_pos k
    obtain ⟨p, hp, hp1, hp2⟩ := h3 hlt
    exact ⟨p, hp, by omega, hp2⟩

/-- Witness of C11 at exam level 5 with two `moveRight()` calls and fourteen frames: the eighth call
is the first of the task at index 1, and among the seven calls before it the task at index 0 has
returned done. -/
theorem scheduler_monotonic_fifo_witness :
    ∃ p ∈ (taskTrace (construct 900 400) twoMovesPlayed).take 7, p.index = 0 ∧ p.done = true :=
  ((scheduler_monotonic_fifo.2.2 900 400 twoMovesPlayed).2.2
    ((taskTrace (construct 900 400) twoMovesPlayed).take 7)
    ⟨1, Anim.moveRightAnimation, false, false, false⟩
    ((taskTrace (construct 900 400) twoMovesPlayed).drop 8) (by decide)).2 0 rfl

/-- C12. In every run from construction, for every call of a grab or drop task: if the task at
that index has not been called before, `isMovingUp` is false at the call (the task starts
descending, whatever ran before it); and if the call returns done, then `isMovingUp` was true at
the call and is false after it (the ascent of this task has ended), and an earlier call of the same
task at the same index found `isMovingUp` false and left it true without returning done (the
descent of this task has ended). -/
theorem hand_task_owns_its_phases (w h : Nat) (ops : List Op)
    (pre : List TaskCall) (c : TaskCall) (post : List TaskCall)
    (htrace : taskTrace (construct w h) ops = pre ++ c :: post)
    (hhand : c.task.isHand = true) :
    ((∀ p ∈ pre, p.index ≠ c.index) → c.movingUpBefore = false) ∧
      (c.done = true →
        c.movingUpBefore = true ∧ c.movingUpAfter = false ∧
          ∃ p ∈ pre, p.index = c.index ∧ p.task = c.task ∧ p.movingUpBefore = false ∧
            p.done = false ∧ p.movingUpAfter = true) := by
  obtain ⟨h1, h2⟩ :=
    taskTrace_flag (construct w h) ops (queueOk_construct w h) pre c post htrace
  have hearlier : c.movingUpBefore = true →
      ∃ p ∈ pre, p.index = c.index ∧ p.movingUpBefore = false ∧ p.done = false ∧
        p.movingUpAfter = true := by
    intro hb
    rcases h2 hb with ⟨_, hflag⟩ | hp
    · simp [construct] at hflag
    · exact hp
  refine ⟨?_, ?_⟩
  · intro hfirst
    cases hb : c.movingUpBefore with
    | false => rfl
    | true =>
      obtain ⟨p, hp, hidx, _⟩ := hearlier hb
      exact absurd hidx (hfirst p hp)
  · intro hd
    obtain ⟨hb, ha⟩ := h1 hhand hd
    obtain ⟨p, hp, hidx, hp1, hp2, hp3⟩ := hearlier hb
    refine ⟨hb, ha, p, hp, hidx, ?_, hp1, hp2, hp3⟩
    have hc1 := taskTrace_task (construct w h) ops c
      (by rw [htrace]; exact List.mem_append_right _ (List.mem_cons_self _ _))
    have hp4 := taskTrace_task (construct w h) ops p
      (by rw [htrace]; exact List.mem_append_left _ hp)
    rw [hidx, hc1] at hp4
    injection hp4 with e
    exact e.symm

/-- Witness of C12 at exam level 5 with one `grab()` and nine frames: the ninth call returns done;
the fourth call is the one that ended the descent. -/
theorem hand_task_owns_its_phases_witness :
    ((∀ p ∈ (taskTrace (construct 900 400) grabPlayed).take 8, p.index ≠ 0) → true = false) ∧
      (true = true →
        true = true ∧ false = false ∧
          ∃ p ∈ (taskTrace (construct 900 400) grabPlayed).take 8,
            p.index = 0 ∧ p.task = Anim.grabAnimation ∧ p.movingUpBefore = false ∧
              p.done = false ∧ p.movingUpAfter = true) :=
  hand_task_owns_its_phases 900 400 grabPlayed
    ((taskTrace (construct 900 400) grabPlayed).take 8)
    ⟨0, Anim.grabAnimation, true, true, false⟩
    ((taskTrace (construct 900 400) grabPlayed).drop 9) (by decide) (by decide)

end RobotArm
